import Mathlib

/-!
# goki: scheduler, due-set selection, review deck and text store

A shallow embedding of `card.go`, `deck.go` and `util.go`.

Conventions of the embedding:

* Go `int` is the 64-bit signed integer; a value is an `Int` and `++` wraps with `wrapInt64`.
* A finite `float64` is the rational it stands for, and every floating-point operation is
  the exact operation followed by `roundF64`, the rounding of IEEE 754 binary64 to the
  nearest value, ties to even. Each operation is rounded on its own, as on amd64 (the Go
  specification lets an implementation fuse `x*y + z`). A result of magnitude `2 ^ 1024` or
  more stands for an infinity; the sign of a zero is not kept, and no value stands for a
  NaN, which the arithmetic of `SM2` gives only from an ease factor that is infinite or a
  NaN already. The conversion `int(f)` is `goInt`.
* `time.Time` is an instant counted in nanoseconds (`Time`); `time.Now()` is an argument `now`.
* `*Card` is an address `Ptr` into a `Heap` of cards, so that the deck's items, the review
  list, the undo stack and the session's current card can share cards as they do in Go.
-/

namespace Goki

/-! ## The `float64` arithmetic of Go -/

/-- Rounding of a rational to the nearest integer, a tie going to the even one. -/
def roundHalfEven (t : ℚ) : Int :=
  if t - ⌊t⌋ < 1 / 2 then ⌊t⌋
  else if 1 / 2 < t - ⌊t⌋ then ⌊t⌋ + 1
  else if ⌊t⌋ % 2 = 0 then ⌊t⌋
  else ⌊t⌋ + 1

/-- The exponent of the spacing of the `float64` values around `x`: 52 below the binary
exponent of `x`, and -1074 throughout the subnormal range. -/
def ulpExp (x : ℚ) : Int :=
  max (Int.log 2 |x|) (-1022) - 52

/-- The `float64` nearest to `x` (IEEE 754 binary64, round to nearest, ties to even): `x` is
rounded to a multiple of the spacing at `x`. -/
def roundF64 (x : ℚ) : ℚ :=
  (roundHalfEven (x / 2 ^ ulpExp x) : ℚ) * 2 ^ ulpExp x

/-! ## card.go -/

/-- `Status` of card.go: `New`, `Learning`, `Review`, `Complete` are 0, 1, 2, 3. -/
inductive Status where
  | New
  | Learning
  | Review
  | Complete
  deriving DecidableEq, Repr

/-- The integer behind a `Status` (what `%d` prints). -/
def Status.toInt : Status → Int
  | .New => 0
  | .Learning => 1
  | .Review => 2
  | .Complete => 3

/-- `Difficulty` of card.go: `Again`, `Good`, `Easy` are 0, 1, 2. -/
inductive Difficulty where
  | Again
  | Good
  | Easy
  deriving DecidableEq, Repr

/-- The conversion `float64(diff)`. -/
def Difficulty.toRat : Difficulty → ℚ
  | .Again => 0
  | .Good => 1
  | .Easy => 2

/-- An instant, in nanoseconds; `0` is the zero value of `time.Time`. -/
abbrev Time := Int

/-- The struct `Card`. -/
structure Card where
  Front : String
  Back : String
  Score : Int
  Interval : Int
  EaseFactor : ℚ
  Status : Status
  LastReviewed : Time
  deriving DecidableEq

/-- The zero value `Card{}`. -/
def Card.zero : Card :=
  { Front := "", Back := "", Score := 0, Interval := 0, EaseFactor := 0,
    Status := .New, LastReviewed := 0 }

/-- Two's-complement wrap of an integer into the range of a 64-bit `int`. -/
def wrapInt64 (x : Int) : Int :=
  (x + 2 ^ 63) % 2 ^ 64 - 2 ^ 63

/-- Rounding toward zero: the integer part of a rational. -/
def truncRat (q : ℚ) : Int :=
  if 0 ≤ q then ⌊q⌋ else ⌈q⌉

/-- The conversion `int(f)` of a float: the fraction is discarded (rounding toward zero).
Outside the range of `int` the Go specification leaves the value to the implementation;
the model takes the amd64 result, the least `int`. -/
def goInt (q : ℚ) : Int :=
  if -(2 ^ 63 : Int) ≤ truncRat q ∧ truncRat q < 2 ^ 63 then truncRat q else -(2 ^ 63)

/-- `NewCard(front, back)`: the fields not listed in the literal are zero. -/
def NewCard (front back : String) : Card :=
  { Front := front, Back := back, Score := 0, Interval := 0, EaseFactor := 0,
    Status := .New, LastReviewed := 0 }

/-- The `switch diff` of `Card.SM2` (card.go lines 60-81); `fl` is the rounding of the result
of a floating-point operation. -/
def sm2Switch (fl : ℚ → ℚ) (c : Card) : Difficulty → Card
  | .Again => { c with Score := 0, Interval := 0, Status := .Learning }
  | .Good =>
    let c1 : Card :=
      if c.Score = 0 then { c with Interval := 10 }
      else { c with Interval := goInt (fl (fl (c.Interval : ℚ) * c.EaseFactor)) }
    { c1 with Status := .Complete, Score := wrapInt64 (c1.Score + 1) }
  | .Easy =>
    let c1 : Card :=
      if c.Score = 0 then { c with Interval := 20 }
      else { c with Interval := goInt (fl (fl (c.Interval : ℚ) * c.EaseFactor)) }
    { c1 with Status := .Complete, Score := wrapInt64 (c1.Score + 1) }

/-- The ease update of `Card.SM2` (card.go line 82) on the ease factor `e`:
`e + 0.1 - (5-float64(diff))*(0.08+(5-float64(diff))*0.02)`, the constants `0.1`, `0.08`
and `0.02` converted to `float64` and the result of each operation rounded by `fl`. -/
def easeUpdate (fl : ℚ → ℚ) (e : ℚ) (diff : Difficulty) : ℚ :=
  fl (fl (e + fl (1 / 10))
    - fl (fl (5 - diff.toRat)
        * fl (fl (8 / 100) + fl (fl (5 - diff.toRat) * fl (2 / 100)))))

/-- The subtrahend `(5-float64(diff))*(0.08+(5-float64(diff))*0.02)` of the ease update, as
`float64` arithmetic gives it: the values printed as `0.9`, `0.64` and `0.42`. -/
def easeDrop : Difficulty → ℚ
  | .Again => 2026619832316723 / 2251799813685248
  | .Good => 5764607523034235 / 9007199254740992
  | .Easy => 3783023686991217 / 9007199254740992

/-- The body of `Card.SM2(diff)`, with `now` the value of `time.Now()` and `fl` the rounding
of the result of a floating-point operation: the switch, then the ease update of line 82
and the time stamp of line 83. -/
def SM2With (fl : ℚ → ℚ) (now : Time) (c : Card) (diff : Difficulty) : Card :=
  let c1 := sm2Switch fl c diff
  { c1 with EaseFactor := easeUpdate fl c1.EaseFactor diff, LastReviewed := now }

/-- `Card.SM2(diff)`: every floating-point operation rounds to `float64`. -/
def SM2 (now : Time) (c : Card) (diff : Difficulty) : Card :=
  SM2With roundF64 now c diff

/-- `Card.SM2(diff)` with the arithmetic taken exactly: no operation rounds, and `0.1`,
`0.08` and `0.02` are the rationals `1/10`, `8/100` and `2/100`. -/
def SM2Exact (now : Time) (c : Card) (diff : Difficulty) : Card :=
  SM2With id now c diff

/-- A sequence of `SM2` calls applied in order, each with the clock reading of its call. -/
def rateAll (c : Card) : List (Time × Difficulty) → Card
  | [] => c
  | r :: rs => rateAll (SM2 r.1 c r.2) rs

/-- The formatting done by the libraries inside `fmt.Sprintf`: the verb `%.2f` on a float and
`time.Time.Format(time.RFC3339)`. Both belong to the Go standard library and are taken as
given. -/
structure Fmt where
  float2 : ℚ → String
  rfc3339 : Time → String

/-- `Card.ToMarkdown()`: the `Sprintf` of card.go line 88, `%d` printing an integer in
decimal. -/
def ToMarkdown (f : Fmt) (c : Card) : String :=
  "### Card\n- **Front:** " ++ c.Front ++ "\n- **Back:** " ++ c.Back
    ++ "\n- **Score:** " ++ toString c.Score
    ++ "\n- **Interval:** " ++ toString c.Interval
    ++ "\n- **Ease Factor:** " ++ f.float2 c.EaseFactor
    ++ "\n- **Status:** " ++ toString c.Status.toInt
    ++ "\n- **Last Reviewed:** " ++ f.rfc3339 c.LastReviewed ++ "\n"

/-! ## deck.go -/

/-- The address of a card: a value of type `*Card`. -/
abbrev Ptr := Nat

/-- The cards in memory, by address. -/
abbrev Heap := Ptr → Card

/-- The message given to `Deck.Update`, as the type switch and the `key.Matches` cases see
it: `nil`, a key message named after the binding of `keyMap` in the first case of the
switch that it matches (`otherKey` when it matches none), a window-size message, or a message of another type. -/
inductive Msg where
  | nil
  | Quit
  | Back
  | New
  | Delete
  | Undo
  | Edit
  | Search
  | Open
  | Easy
  | Good
  | Again
  | Enter
  | otherKey
  | windowSize (width height : Int)
  | other
  deriving DecidableEq, Repr

/-- The part of the list widget `list.Model` (package bubbles) that the deck reads: the
items, all of them `*Card` (this program stores no nil item, so the tests `card != nil`
always pass), the value of `Index()`, and the remaining widget state (pagination, filter,
size, title), which is kept as an uninterpreted number. -/
structure ListModel where
  items : List Ptr
  index : Nat
  aux : Nat
  deriving DecidableEq

/-- The operations of the widget that the deck calls. -/
inductive ListOp where
  | new
  | setItems
  | insertItem
  | removeItem
  | setSize
  | update (msg : Msg)

/-- The behaviour of the widget that is not fixed by this repository: how an operation
moves the cursor and the rest of the widget state (from the new items, the old `Index()`
and the old state), and which item `SelectedItem()` reports. -/
structure Widget where
  step : ListOp → List Ptr → Nat → Nat → Nat × Nat
  selected : List Ptr → Nat → Nat → Option Ptr

/-- The items after a widget operation, with cursor and widget state moved by `w`. -/
def ListModel.after (w : Widget) (op : ListOp) (m : ListModel) (items : List Ptr) :
    ListModel :=
  { items := items, index := (w.step op items m.index m.aux).1,
    aux := (w.step op items m.index m.aux).2 }

/-- `list.New(items, delegate, 0, 0)`. -/
def ListModel.New (w : Widget) (items : List Ptr) : ListModel :=
  ListModel.after w .new { items := [], index := 0, aux := 0 } items

/-- `Model.SetItems(i)`: the items are replaced. -/
def ListModel.SetItems (w : Widget) (m : ListModel) (i : List Ptr) : ListModel :=
  m.after w .setItems i

/-- `Model.SetSize(width, height)`: the items stay. -/
def ListModel.SetSize (w : Widget) (m : ListModel) : ListModel :=
  m.after w .setSize m.items

/-- `Model.InsertItem(index, item)`: the item is appended when the index is past the end,
else it is inserted at the index. -/
def ListModel.InsertItem (w : Widget) (m : ListModel) (index : Nat) (item : Ptr) :
    ListModel :=
  m.after w .insertItem
    (if m.items.length ≤ index then m.items ++ [item]
     else m.items.take index ++ item :: m.items.drop index)

/-- `Model.RemoveItem(index)`: the item at the index is removed; no change when the index is
out of bounds. -/
def ListModel.RemoveItem (w : Widget) (m : ListModel) (index : Nat) : ListModel :=
  m.after w .removeItem (m.items.eraseIdx index)

/-- `Model.Update(msg)` of the widget: navigation and filtering; the items stay. -/
def ListModel.Update (w : Widget) (m : ListModel) (msg : Msg) : ListModel :=
  m.after w (.update msg) m.items

/-- The struct `ReviewData`; `curr` is `none` for the nil pointer. -/
structure ReviewData where
  reviewing : Bool
  complete : Bool
  currIx : Int
  curr : Option Ptr
  reviewCards : List Ptr
  deriving DecidableEq

/-- The struct `Deck`, without its presentation fields `keyMap`, `help` and `progress`. -/
structure Deck where
  descShown : Bool
  resultsShown : Bool
  searching : Bool
  numNew : Int
  numLearning : Int
  numReview : Int
  numComplete : Int
  Name : String
  Json : String
  Cards : ListModel
  reviewData : ReviewData
  deletedCards : List Ptr
  deriving DecidableEq

/-- The memory and the deck a method of `*Deck` works on. -/
structure World where
  heap : Heap
  d : Deck

/-- One round of the loop of `Deck.UpdateStatus` (deck.go lines 64-77), on the deck and the
slice `temp`. -/
def updateStatusStep (h : Heap) (st : Deck × List Ptr) (p : Ptr) : Deck × List Ptr :=
  let d := st.1
  let d1 : Deck :=
    match (h p).Status with
    | .New => { d with numNew := wrapInt64 (d.numNew + 1) }
    | .Learning => { d with numLearning := wrapInt64 (d.numLearning + 1) }
    | .Review => { d with numReview := wrapInt64 (d.numReview + 1) }
    | .Complete => { d with numComplete := wrapInt64 (d.numComplete + 1) }
  (d1, st.2 ++ [p])

/-- `Deck.UpdateStatus()`. -/
def UpdateStatus (w : Widget) (h : Heap) (d : Deck) : Deck :=
  let d0 : Deck := { d with numNew := 0, numLearning := 0, numReview := 0 }
  let r := d0.Cards.items.foldl (updateStatusStep h) (d0, [])
  { r.1 with Cards := r.1.Cards.SetItems w r.2 }

/-- `time.Time.Sub`: the difference in nanoseconds, kept within the range of a
`time.Duration`. -/
def timeSub (t u : Time) : Int :=
  if t - u < -(2 ^ 63) then -(2 ^ 63)
  else if 2 ^ 63 - 1 < t - u then 2 ^ 63 - 1
  else t - u

/-- `Duration.Minutes()` of package time: `min := d / Minute`, `nsec := d % Minute` (integer
division, truncating) and `float64(min) + float64(nsec)/(60*1e9)`. -/
def durationMinutes (d : Int) : ℚ :=
  roundF64 (roundF64 (Int.tdiv d 60000000000 : Int)
    + roundF64 (roundF64 (Int.tmod d 60000000000 : Int) / 60000000000))

/-- `math.Floor(duration.Minutes())`: the floor of the `float64` number of minutes, an
integer. -/
def floorMinutes (duration : Int) : Int :=
  ⌊durationMinutes duration⌋

/-- The test `minutes >= float64(c.Interval)` of `Deck.GetReviewCards` (deck.go lines
98-100) for a card that is not new. -/
def intervalElapsed (timeNow : Time) (c : Card) : Bool :=
  decide (roundF64 (c.Interval : ℚ) ≤ (floorMinutes (timeSub timeNow c.LastReviewed) : ℚ))

/-- One round of the loop of `Deck.GetReviewCards` (deck.go lines 93-107), on the memory and
the slice `reviewCards`. -/
def reviewStep (timeNow : Time) (st : Heap × List Ptr) (p : Ptr) : Heap × List Ptr :=
  let c := st.1 p
  if c.Status = .New then (st.1, st.2 ++ [p])
  else if intervalElapsed timeNow c then
    (if c.Status = .Complete then Function.update st.1 p { c with Status := .Review }
     else st.1, st.2 ++ [p])
  else st

/-- `Deck.GetReviewCards()`: the loop, then `rand.Shuffle`, an arbitrary rearrangement
`shuffle` of the collected slice. Returns the memory after the call and the slice. -/
def GetReviewCards (shuffle : List Ptr → List Ptr) (timeNow : Time) (h : Heap)
    (d : Deck) : Heap × List Ptr :=
  let r := d.Cards.items.foldl (reviewStep timeNow) (h, [])
  (r.1, shuffle r.2)

/-- `Deck.StartReview()`. -/
def StartReview (shuffle : List Ptr → List Ptr) (timeNow : Time) (s : World) : World :=
  let r := GetReviewCards shuffle timeNow s.heap s.d
  let rd : ReviewData :=
    { s.d.reviewData with reviewing := true, complete := false, reviewCards := r.2,
                          currIx := 0 }
  let rd1 : ReviewData :=
    if 0 < rd.reviewCards.length then { rd with curr := rd.reviewCards.head? } else rd
  { heap := r.1, d := { s.d with reviewData := rd1 } }

/-- `Deck.UpdateReview()`. -/
def UpdateReview (d : Deck) : Deck :=
  { d with reviewData :=
      { d.reviewData with currIx := wrapInt64 (d.reviewData.currIx + 1), complete := false } }

/-- `InitDeck(name, uuid, lst)`: the fields not listed in the literal are zero. -/
def InitDeck (w : Widget) (h : Heap) (name _uuid : String) (lst : List Ptr) : Deck :=
  let d : Deck :=
    { descShown := false, resultsShown := false, searching := false,
      numNew := 0, numLearning := 0, numReview := 0, numComplete := 0,
      Name := name, Json := name, Cards := ListModel.New w lst,
      reviewData :=
        { reviewing := false, complete := false, currIx := 0, curr := none,
          reviewCards := [] },
      deletedCards := [] }
  let d1 : Deck := { d with Cards := d.Cards.SetSize w }
  let d2 : Deck := { d1 with searching := false, descShown := true }
  UpdateStatus w h d2

/-- How a call of `Deck.Update` ends: `deck` for `return d, cmd`, `quit` for
`return d, tea.Quit`, `user` for `return currUser.Update(nil)`, `newForm` for `return f.Update(nil)` on the
form `newDefaultForm()`, and `editForm` for the same on `EditForm(front, back)` with the
form's `index`. -/
inductive Next where
  | deck
  | quit
  | user
  | newForm
  | editForm (index : Nat) (front back : String)
  deriving DecidableEq

/-- The end of `Deck.Update` (deck.go lines 242-260): the review block, then the widget's
own update. `none` is a run-time panic (index out of range). The writes of `saveAll` and
the table refresh of `currUser` act outside the deck and its cards. -/
def afterSwitch (w : Widget) (cli : Bool) (msg : Msg) (s : World) : Option (World × Next) :=
  let listUpdate (s1 : World) : Option (World × Next) :=
    some ({ s1 with d := { s1.d with Cards := s1.d.Cards.Update w msg } }, .deck)
  if s.d.reviewData.reviewing then
    if s.d.reviewData.currIx > (s.d.reviewData.reviewCards.length : Int) - 1 then
      if cli then some (s, .quit)
      else
        let d1 : Deck :=
          { s.d with reviewData := { s.d.reviewData with reviewing := false, complete := false } }
        some ({ s with d := UpdateStatus w s.heap d1 }, .user)
    else if s.d.reviewData.currIx < 0 then none
    else
      match s.d.reviewData.reviewCards.get? s.d.reviewData.currIx.toNat with
      | none => none
      | some p =>
        listUpdate { s with d := { s.d with reviewData := { s.d.reviewData with curr := some p } } }
  else listUpdate s

/-- A rating case of `Deck.Update` (deck.go lines 212-229): when the answer is shown, `SM2`
on the current card, `UpdateReview`, `saveCards`. `none` is the panic of a nil `curr`. -/
def rate (now : Time) (diff : Difficulty) (s : World) : Option World :=
  if s.d.reviewData.complete then
    match s.d.reviewData.curr with
    | none => none
    | some p =>
      some { heap := Function.update s.heap p (SM2 now (s.heap p) diff),
             d := UpdateReview s.d }
  else some s

/-- `Deck.Update(msg)`, with `now` the clock reading and `cli` the global flag. A call
`d.Update(nil)` runs no case of the switch, so it is `afterSwitch` at `Msg.nil`. `none` is a
run-time panic. -/
def Update (w : Widget) (cli : Bool) (now : Time) (msg : Msg) (s : World) :
    Option (World × Next) :=
  match msg with
  | .Quit =>
    if !s.d.searching then some (s, .quit) else afterSwitch w cli msg s
  | .Back =>
    if cli then some (s, .quit)
    else if s.d.resultsShown then
      afterSwitch w cli msg { s with d := { s.d with resultsShown := false } }
    else some ({ s with d := UpdateStatus w s.heap s.d }, .user)
  | .New =>
    if !s.d.searching && !s.d.reviewData.reviewing then some (s, .newForm)
    else afterSwitch w cli msg s
  | .Delete =>
    if !s.d.searching && !s.d.reviewData.reviewing then
      match s.d.Cards.items.get? s.d.Cards.index with
      | none => none
      | some p =>
        let d1 : Deck := { s.d with deletedCards := s.d.deletedCards ++ [p] }
        let d2 : Deck := { d1 with Cards := d1.Cards.RemoveItem w d1.Cards.index }
        let d3 : Deck := UpdateStatus w s.heap d2
        afterSwitch w cli .nil { s with d := d3 }
    else afterSwitch w cli msg s
  | .Undo =>
    match s.d.deletedCards.getLast? with
    | some p =>
      if !s.d.searching && !s.d.reviewData.reviewing then
        let d1 : Deck := { s.d with Cards := s.d.Cards.InsertItem w 0 p }
        let d2 : Deck := { d1 with deletedCards := d1.deletedCards.dropLast }
        afterSwitch w cli .nil { s with d := d2 }
      else afterSwitch w cli msg s
    | none => afterSwitch w cli msg s
  | .Edit =>
    if !s.d.searching && !s.d.reviewData.reviewing && 0 < s.d.Cards.items.length then
      match w.selected s.d.Cards.items s.d.Cards.index s.d.Cards.aux with
      | none => none
      | some p =>
        some (s, .editForm s.d.Cards.index (s.heap p).Front (s.heap p).Back)
    else afterSwitch w cli .nil s
  | .Search =>
    if !s.d.searching then afterSwitch w cli msg { s with d := { s.d with searching := true } }
    else afterSwitch w cli msg s
  | .Open =>
    if !s.d.searching && 0 < s.d.Cards.items.length then
      let d1 : Deck :=
        if s.d.reviewData.reviewing then
          { s.d with reviewData := { s.d.reviewData with complete := true } }
        else s.d
      afterSwitch w cli .nil { s with d := d1 }
    else afterSwitch w cli msg s
  | .Easy => (rate now .Easy s).bind (afterSwitch w cli msg)
  | .Good => (rate now .Good s).bind (afterSwitch w cli msg)
  | .Again => (rate now .Again s).bind (afterSwitch w cli msg)
  | .Enter =>
    if s.d.searching then
      afterSwitch w cli msg { s with d := { s.d with searching := false, resultsShown := true } }
    else afterSwitch w cli msg s
  | _ => afterSwitch w cli msg s

/-! ## util.go -/

/-- The text cut at every line feed: the lines as `bufio.ScanLines` finds them, before the
carriage return is dropped. A last line without line feed counts when it is not empty. -/
def splitLines : List Char → List (List Char)
  | [] => []
  | c :: cs =>
    if c = '\n' then [] :: splitLines cs
    else
      match splitLines cs with
      | [] => [[c]]
      | l :: ls => (c :: l) :: ls

/-- The function `dropCR` of `bufio`: a final carriage return is removed. -/
def dropCR (l : List Char) : List Char :=
  if l.getLast? = some '\r' then l.dropLast else l

/-- The length in bytes of a text (UTF-8). -/
def byteLen (l : List Char) : Nat :=
  (l.map Char.utf8Size).sum

/-- All the lines that `scanner.Scan()` and `scanner.Text()` deliver for a file content.
A line of 65536 bytes or more does not fit the scanner's buffer: `scanner.Err()` is then
`ErrTooLong` and the caller ends in `log.Fatalf`, which is `none`. -/
def scanLines (text : String) : Option (List String) :=
  if (splitLines text.data).all (fun l => decide (byteLen l < 65536)) then
    some ((splitLines text.data).map (fun l => String.mk (dropCR l)))
  else none

/-- `strings.HasPrefix(line, p)`. -/
def hasPrefix (line p : String) : Bool :=
  p.data.isPrefixOf line.data

/-- `strings.TrimPrefix(line, p)`. -/
def trimPrefix (line p : String) : String :=
  if hasPrefix line p then String.mk (line.data.drop p.data.length) else line

/-- The zero value `Deck{}`. -/
def Deck.zero : Deck :=
  { descShown := false, resultsShown := false, searching := false,
    numNew := 0, numLearning := 0, numReview := 0, numComplete := 0,
    Name := "", Json := "", Cards := { items := [], index := 0, aux := 0 },
    reviewData :=
      { reviewing := false, complete := false, currIx := 0, curr := none, reviewCards := [] },
    deletedCards := [] }

/-- The step `if current != nil { list = append(list, current) }` of `readDecks` and
`readCards`, taken at each heading and after the loop: the record still being read, if
there is one, is appended. -/
def finish {α : Type} (st : List α × Option α) : List α :=
  match st.2 with
  | some cur => st.1 ++ [cur]
  | none => st.1

/-- One round of the loop of `readDecks` (util.go lines 168-180), on the slice `decks` and
the pointer `currentDeck`. -/
def readDecksLine (st : List Deck × Option Deck) (line : String) : List Deck × Option Deck :=
  if hasPrefix line "## " then
    (finish st, some { Deck.zero with Name := trimPrefix line "## ", Json := "" })
  else if hasPrefix line "- JSON File: " then
    match st.2 with
    | some cur => (st.1, some { cur with Name := trimPrefix line "- JSON File: " })
    | none => st
  else st

/-- `readDecks(fileName)` on the content of the file, `none` when the file cannot be
opened: it is then created holding the heading, and read. The result `none` is
`log.Fatalf`. -/
def readDecks (file : Option String) : Option (List Deck) :=
  let text := match file with
    | some t => t
    | none => "# Decks\n\n"
  match scanLines text with
  | none => none
  | some ls =>
    some (finish (ls.foldl readDecksLine ([], none)))

/-- One round of the loop of `readCards` (util.go lines 202-218), on the slice `cards` and
the pointer `currentCard`. -/
def readCardsLine (st : List Card × Option Card) (line : String) : List Card × Option Card :=
  if hasPrefix line "### Card" then
    (finish st, some Card.zero)
  else if hasPrefix line "- Front: " then
    match st.2 with
    | some cur => (st.1, some { cur with Front := trimPrefix line "- Front: " })
    | none => st
  else if hasPrefix line "- Back: " then
    match st.2 with
    | some cur => (st.1, some { cur with Back := trimPrefix line "- Back: " })
    | none => st
  else st

/-- `readCards(fileName)` on the content of the file, `none` when the file cannot be
opened. The cards that the returned items point to, in order; each is a new card in
memory. The result `none` is `log.Fatalf`. -/
def readCards (file : Option String) : Option (List Card) :=
  match file with
  | none => none
  | some text =>
    match scanLines text with
    | none => none
    | some ls =>
      some (finish (ls.foldl readCardsLine ([], none)))

/-- The text that `Deck.saveCards()` writes to the deck's card file. -/
def saveCardsText (f : Fmt) (h : Heap) (d : Deck) : String :=
  d.Cards.items.foldl (fun sb p => sb ++ ToMarkdown f (h p)) "# Cards\n\n"

/-- The text that `saveDecks()` writes to `decks.md` for the decks of the user. -/
def saveDecksText (decks : List Deck) : String :=
  decks.foldl (fun sb d => sb ++ ("## " ++ d.Name ++ "\n- Deck File: " ++ d.Name ++ "\n"))
    "# Decks\n\n"

/-- The files of the application directory: `decks.md` and, by the name of the deck, the
files `cards/<name>.md`. -/
structure Files where
  decks : Option String
  cards : String → Option String

/-- The memory with the next free address. -/
structure Mem where
  heap : Heap
  next : Ptr

/-- New cards placed in memory one after the other; returns their addresses. -/
def allocCards (m : Mem) : List Card → Mem × List Ptr
  | [] => (m, [])
  | c :: cs =>
    let r := allocCards { heap := Function.update m.heap m.next c, next := m.next + 1 } cs
    (r.1, m.next :: r.2)

/-- The loop of `loadDecks` (util.go lines 138-142) over the decks read from the index,
appending to `currUser.decks`. -/
def loadDecksLoop (w : Widget) (fs : Files) (m : Mem) (acc : List Deck) :
    List Deck → Option (Mem × List Deck)
  | [] => some (m, acc)
  | curr :: rest =>
    match readCards (fs.cards curr.Name) with
    | none => none
    | some cards =>
      let r := allocCards m cards
      loadDecksLoop w fs r.1 (acc ++ [InitDeck w r.1.heap curr.Name curr.Name r.2]) rest

/-- `loadDecks()`: the decks appended to `currUser.decks`, with the memory holding their
cards. -/
def loadDecks (w : Widget) (fs : Files) (m : Mem) (userDecks : List Deck) :
    Option (Mem × List Deck) :=
  match readDecks fs.decks with
  | none => none
  | some d => loadDecksLoop w fs m userDecks d

/-! ## The eligibility predicate of the specification, and sample data -/

/-- The minutes elapsed from `last` to `now`, rounded down: exact arithmetic on the two
instants. -/
def minutesElapsed (now last : Time) : Int :=
  ⌊((now - last : Int) : ℚ) / 60000000000⌋

/-- The eligibility predicate in the words of the specification: the card has status `New`,
or the floor of the minutes elapsed from `LastReviewed` to `now` is at least `Interval`. -/
def eligible (now : Time) (c : Card) : Bool :=
  decide (c.Status = .New) || decide (c.Interval ≤ minutesElapsed now c.LastReviewed)

/-- The test that `Deck.GetReviewCards` makes on a card (deck.go lines 95-100). -/
def isDue (timeNow : Time) (c : Card) : Bool :=
  decide (c.Status = .New) || intervalElapsed timeNow c

/-- The lines of the record that `ToMarkdown` writes for a card, without the line feeds. -/
def cardLines (f : Fmt) (c : Card) : List (List Char) :=
  [ "### Card".data,
    "- **Front:** ".data ++ c.Front.data,
    "- **Back:** ".data ++ c.Back.data,
    "- **Score:** ".data ++ (toString c.Score).data,
    "- **Interval:** ".data ++ (toString c.Interval).data,
    "- **Ease Factor:** ".data ++ (f.float2 c.EaseFactor).data,
    "- **Status:** ".data ++ (toString c.Status.toInt).data,
    "- **Last Reviewed:** ".data ++ (f.rfc3339 c.LastReviewed).data ]

/-- A card that has been rated: score 1, interval 10, ease factor 1/4. -/
def scoredCard : Card :=
  { Front := "2+2", Back := "4", Score := 1, Interval := 10, EaseFactor := 1 / 4,
    Status := .Complete, LastReviewed := 0 }

/-- A card reached from `NewCard` by the ratings Good, Easy, Easy, Again, Easy: score 1,
interval 20 and the ease factor `-2589569785738035 / 2^50`, the `float64` printed as
`-2.3`. -/
def lapsedCard : Card :=
  { Front := "2+2", Back := "4", Score := 1, Interval := 20,
    EaseFactor := -(2589569785738035 / 1125899906842624),
    Status := .Complete, LastReviewed := 0 }

/-- A memory of four cards: a new card at address 0, a `Learning` card at 1, and `Complete`
cards with intervals 10 and 20 at 2 and at every other address. -/
def demoHeap : Heap := fun p =>
  match p with
  | 0 => NewCard "2+2" "4"
  | 1 => { Front := "a", Back := "b", Score := 0, Interval := 0, EaseFactor := 0,
           Status := .Learning, LastReviewed := 0 }
  | 2 => { Front := "c", Back := "d", Score := 1, Interval := 10, EaseFactor := 0,
           Status := .Complete, LastReviewed := 0 }
  | _ => { Front := "e", Back := "f", Score := 1, Interval := 20, EaseFactor := 0,
           Status := .Complete, LastReviewed := 0 }

/-- A deck holding the cards at addresses 0 to 3, the third selected, all counters 0. -/
def demoDeck : Deck :=
  { Deck.zero with
    Name := "demo", Json := "demo", Cards := { items := [0, 1, 2, 3], index := 2, aux := 0 } }

/-- A deck holding only the new card at address 0. -/
def oneCardDeck : Deck :=
  { Deck.zero with
    Name := "demo", Json := "demo", Cards := { items := [0], index := 0, aux := 0 } }

/-- A widget that never moves its cursor and reports the item under it. -/
def demoWidget : Widget :=
  { step := fun _ _ i a => (i, a), selected := fun l i _ => l.get? i }

/-- The library's formatting at the values of a card that was never rated: `%.2f` of the
ease factor 0 and RFC 3339 of the zero time. -/
def demoFmt : Fmt :=
  { float2 := fun _ => "0.00", rfc3339 := fun _ => "0001-01-01T00:00:00Z" }

/-- The files of the loading scenario: the index with the heading `Spanish` and the key
`spanish`, and one card file, for the name `spanish`. -/
def demoFiles : Files :=
  { decks := some "## Spanish\n- JSON File: spanish\n",
    cards := fun name =>
      if name = "spanish" then some "# Cards\n\n### Card\n- Front: hola\n- Back: hello\n"
      else none }

/-- A memory with no card placed yet. -/
def emptyMem : Mem :=
  { heap := fun _ => Card.zero, next := 0 }

/-! ## The review session: how it is driven, and the memory the specification expects -/

/-- The key message of a rating: the binding `Again`, `Good` or `Easy` of `keyMap`. -/
def Difficulty.key : Difficulty → Msg
  | .Again => .Again
  | .Good => .Good
  | .Easy => .Easy

/-- A review session is running with the cursor at `i`: the deck is reviewing and not
searching, `currIx` is `i`, an index of the due list, and `curr` is the card at `i`. -/
def Active (s : World) (i : Nat) : Prop :=
  s.d.searching = false ∧ s.d.Cards.items ≠ [] ∧ s.d.reviewData.reviewing = true ∧
    s.d.reviewData.currIx = i ∧ i < s.d.reviewData.reviewCards.length ∧
    s.d.reviewData.curr = s.d.reviewData.reviewCards.get? i

/-- One reveal-then-rate step in non-CLI mode: the Open key, then the key of the rating,
both handled by `Update` at the clock reading of the step. `none` when a call panics or
the Open key does not leave the deck as the active model. -/
def revealThenRate (w : Widget) (r : Time × Difficulty) (s : World) : Option (World × Next) :=
  match Update w false r.1 .Open s with
  | some (s1, .deck) => Update w false r.1 r.2.key s1
  | _ => none

/-- A run of reveal-then-rate steps; a step after the deck stopped being the active model
is `none`. -/
def runSession (w : Widget) : List (Time × Difficulty) → World → Option (World × Next)
  | [], s => some (s, .deck)
  | r :: rs, s =>
    match revealThenRate w r s with
    | some (s1, .deck) => runSession w rs s1
    | some (s1, nx) => if rs = [] then some (s1, nx) else none
    | none => none

/-- The memory after `SM2` has been applied to the listed cards, one after the other, each
with its clock reading and rating. -/
def rateCards (h : Heap) : List (Ptr × Time × Difficulty) → Heap
  | [] => h
  | x :: rest => rateCards (Function.update h x.1 (SM2 x.2.1 (h x.1) x.2.2)) rest

/-! ## Lemmas on rounding to `float64` -/

theorem roundHalfEven_eq (t : ℚ) (n : Int) (h1 : (n : ℚ) - 1 / 2 < t) (h2 : t < n + 1 / 2) :
    roundHalfEven t = n := by
  unfold roundHalfEven
  by_cases hn : (n : ℚ) ≤ t
  · have hf : ⌊t⌋ = n := by
      rw [Int.floor_eq_iff]
      constructor
      · exact hn
      · linarith
    rw [hf, if_pos (by linarith)]
  · have hn' : t < n := not_le.mp hn
    have hf : ⌊t⌋ = n - 1 := by
      rw [Int.floor_eq_iff]
      constructor
      · push_cast
        linarith
      · push_cast
        linarith
    rw [hf]
    push_cast
    rw [if_neg (by linarith), if_pos (by linarith)]
    ring

theorem roundHalfEven_intCast (k : Int) : roundHalfEven (k : ℚ) = k :=
  roundHalfEven_eq _ k (by linarith) (by linarith)

theorem le_roundHalfEven (t : ℚ) (k : Int) (h : (k : ℚ) ≤ t) : k ≤ roundHalfEven t := by
  have hk : k ≤ ⌊t⌋ := Int.le_floor.mpr h
  unfold roundHalfEven
  split_ifs <;> omega

theorem roundHalfEven_le_of_lt (t : ℚ) (k : Int) (h : t < k + 1 / 2) :
    roundHalfEven t ≤ k := by
  have hk : ⌊t⌋ ≤ k := by
    have : ⌊t⌋ < k + 1 := by
      rw [Int.floor_lt]
      push_cast
      linarith
    omega
  have hfl := Int.floor_le t
  unfold roundHalfEven
  by_cases hlt : ⌊t⌋ = k
  · rw [if_pos (by rw [hlt]; linarith), hlt]
  · split_ifs <;> omega

theorem roundHalfEven_le (t : ℚ) (k : Int) (h : t ≤ k) : roundHalfEven t ≤ k :=
  roundHalfEven_le_of_lt t k (by linarith)

theorem two_zpow_pos (j : Int) : (0 : ℚ) < 2 ^ j := zpow_pos (by norm_num) j

theorem ulpExp_ge (x : ℚ) : -1074 ≤ ulpExp x := by
  unfold ulpExp
  have := le_max_right (Int.log 2 |x|) (-1022)
  omega

theorem ulpExp_le (x : ℚ) (b : Int) (hb : -1022 ≤ b) (hx : x ≠ 0 ∨ 0 ≤ b)
    (h : |x| < 2 ^ (b + 1)) : ulpExp x ≤ b - 52 := by
  unfold ulpExp
  have hl : Int.log 2 |x| ≤ b := by
    by_cases h0 : x = 0
    · rcases hx with hx | hx
      · exact absurd h0 hx
      · rw [h0, abs_zero, Int.log_of_right_le_zero 2 (le_refl _)]
        exact hx
    · have hpos : 0 < |x| := abs_pos.mpr h0
      have := (Int.lt_zpow_iff_log_lt (R := ℚ) (b := 2) (by norm_num) hpos).mp
        (by simpa using h)
      omega
  have := max_le hl hb
  omega

theorem le_ulpExp (x : ℚ) (b : Int) (h : 2 ^ b ≤ |x|) : b - 52 ≤ ulpExp x := by
  unfold ulpExp
  have hx : 0 < |x| := lt_of_lt_of_le (two_zpow_pos b) h
  have hl : b ≤ Int.log 2 |x| :=
    (Int.zpow_le_iff_le_log (R := ℚ) (b := 2) (by norm_num) hx).mp (by simpa using h)
  have := le_max_left (Int.log 2 |x|) (-1022)
  omega

theorem ulpExp_eq (x : ℚ) (e : Int) (he : -1022 ≤ e) (h1 : 2 ^ e ≤ |x|)
    (h2 : |x| < 2 ^ (e + 1)) : ulpExp x = e - 52 :=
  le_antisymm
    (ulpExp_le x e he
      (Or.inl (fun h0 => by
        rw [h0, abs_zero] at h1
        exact absurd h1 (not_le.mpr (two_zpow_pos e)))) h2)
    (le_ulpExp x e h1)

theorem roundF64_eq (x : ℚ) (e n : Int) (he : -1022 ≤ e) (h1 : 2 ^ e ≤ |x|)
    (h2 : |x| < 2 ^ (e + 1)) (h3 : (n : ℚ) - 1 / 2 < x / 2 ^ (e - 52))
    (h4 : x / 2 ^ (e - 52) < n + 1 / 2) :
    roundF64 x = n * 2 ^ (e - 52) := by
  unfold roundF64
  rw [ulpExp_eq x e he h1 h2, roundHalfEven_eq _ n h3 h4]

theorem roundF64_zero : roundF64 0 = 0 := by
  simp [roundF64, roundHalfEven]

theorem le_roundF64 (x : ℚ) (k : Int) (h : (k : ℚ) * 2 ^ ulpExp x ≤ x) :
    (k : ℚ) * 2 ^ ulpExp x ≤ roundF64 x := by
  unfold roundF64
  have hk : k ≤ roundHalfEven (x / 2 ^ ulpExp x) :=
    le_roundHalfEven _ k ((le_div_iff₀ (two_zpow_pos _)).mpr h)
  exact mul_le_mul_of_nonneg_right (by exact_mod_cast hk) (le_of_lt (two_zpow_pos _))

theorem roundF64_le_of_lt (x : ℚ) (k : Int) (h : x < ((k : ℚ) + 1 / 2) * 2 ^ ulpExp x) :
    roundF64 x ≤ (k : ℚ) * 2 ^ ulpExp x := by
  unfold roundF64
  have hk : roundHalfEven (x / 2 ^ ulpExp x) ≤ k :=
    roundHalfEven_le_of_lt _ k ((div_lt_iff₀ (two_zpow_pos _)).mpr h)
  exact mul_le_mul_of_nonneg_right (by exact_mod_cast hk) (le_of_lt (two_zpow_pos _))

theorem roundF64_le (x : ℚ) (k : Int) (h : x ≤ (k : ℚ) * 2 ^ ulpExp x) :
    roundF64 x ≤ (k : ℚ) * 2 ^ ulpExp x := by
  apply roundF64_le_of_lt
  have := two_zpow_pos (ulpExp x)
  nlinarith

/-- An integer multiple of `2 ^ s` is an integer multiple of every smaller power of two. -/
theorem int_mul_zpow (a : Int) (s j : Int) (h : j ≤ s) :
    ∃ k : Int, (a : ℚ) * 2 ^ s = (k : ℚ) * 2 ^ j := by
  refine ⟨a * 2 ^ (s - j).toNat, ?_⟩
  have hs : s = (s - j).toNat + j := by omega
  conv_lhs => rw [hs]
  rw [zpow_add₀ (by norm_num), zpow_natCast]
  push_cast
  ring

theorem roundF64_of_mul (x : ℚ) (a s : Int) (hs : ulpExp x ≤ s) (hx : x = a * 2 ^ s) :
    roundF64 x = x := by
  obtain ⟨k, hk⟩ := int_mul_zpow a s (ulpExp x) hs
  rw [← hx] at hk
  apply le_antisymm
  · have := roundF64_le x k (le_of_eq hk)
    rwa [← hk] at this
  · have := le_roundF64 x k (le_of_eq hk.symm)
    rwa [← hk] at this

theorem roundF64_intCast (n : Int) (h : |n| < 2 ^ 53) : roundF64 (n : ℚ) = n := by
  apply roundF64_of_mul (n : ℚ) n 0
  · have hq : |(n : ℚ)| < 2 ^ ((52 : Int) + 1) := by
      have : |(n : ℚ)| < 2 ^ (53 : ℕ) := by exact_mod_cast h
      calc |(n : ℚ)| < 2 ^ (53 : ℕ) := this
        _ = 2 ^ ((52 : Int) + 1) := by norm_num
    have := ulpExp_le (n : ℚ) 52 (by norm_num) (Or.inr (by norm_num)) hq
    omega
  · simp

theorem le_roundF64_of_zpow_le (x : ℚ) (b : Int) (hb : -1074 ≤ b) (h : 2 ^ b ≤ x) :
    2 ^ b ≤ roundF64 x := by
  have hx : 0 < x := lt_of_lt_of_le (two_zpow_pos b) h
  have habs : |x| = x := abs_of_pos hx
  have hj : b - 52 ≤ ulpExp x := le_ulpExp x b (by rw [habs]; exact h)
  by_cases hbig : ulpExp x ≤ b
  · obtain ⟨k, hk⟩ := int_mul_zpow 1 b (ulpExp x) hbig
    simp only [Int.cast_one, one_mul] at hk
    have := le_roundF64 x k (by rw [← hk]; exact h)
    rwa [← hk] at this
  · -- the spacing is above `2 ^ b`: the value is at least `2 ^ (ulpExp x + 52)`
    have hlog : 2 ^ (ulpExp x + 52) ≤ x := by
      have hl : ulpExp x + 52 = Int.log 2 |x| := by
        unfold ulpExp at hbig hj ⊢
        rcases max_cases (Int.log 2 |x|) (-1022) with ⟨h1, _⟩ | ⟨h1, _⟩
        · omega
        · rw [h1] at hbig hj
          omega
      rw [hl, habs]
      have := Int.zpow_log_le_self (R := ℚ) (b := 2) (by norm_num) hx
      simpa using this
    obtain ⟨k, hk⟩ := int_mul_zpow 1 (ulpExp x + 52) (ulpExp x) (by omega)
    simp only [Int.cast_one, one_mul] at hk
    have h1 := le_roundF64 x k (by rw [← hk]; exact hlog)
    rw [← hk] at h1
    have h2 : (2 : ℚ) ^ b ≤ 2 ^ (ulpExp x + 52) :=
      zpow_le_zpow_right₀ (by norm_num) (by omega)
    linarith


theorem roundHalfEven_neg (t : ℚ) : roundHalfEven (-t) = -roundHalfEven t := by
  have h1 := Int.floor_le t
  have h2 := Int.lt_floor_add_one t
  by_cases hint : t = ⌊t⌋
  · rw [hint, ← Int.cast_neg, roundHalfEven_intCast, roundHalfEven_intCast]
  · have hlt : (⌊t⌋ : ℚ) < t := lt_of_le_of_ne h1 (Ne.symm hint)
    have hf : ⌊-t⌋ = -⌊t⌋ - 1 := by
      rw [Int.floor_eq_iff]
      push_cast
      constructor <;> linarith
    unfold roundHalfEven
    rw [hf]
    push_cast
    by_cases ha : t - ⌊t⌋ < 1 / 2
    · rw [if_pos ha, if_neg (by linarith), if_pos (by linarith)]
      ring
    · by_cases hb : 1 / 2 < t - ⌊t⌋
      · rw [if_neg ha, if_pos hb, if_pos (by linarith)]
        ring
      · have he : t - ⌊t⌋ = 1 / 2 := le_antisymm (not_lt.mp hb) (not_lt.mp ha)
        rw [if_neg ha, if_neg hb, if_neg (by linarith), if_neg (by linarith)]
        by_cases hev : ⌊t⌋ % 2 = 0
        · rw [if_pos hev, if_neg (by omega)]
          ring
        · rw [if_neg hev, if_pos (by omega)]
          ring

theorem ulpExp_neg (x : ℚ) : ulpExp (-x) = ulpExp x := by
  unfold ulpExp
  rw [abs_neg]

theorem roundF64_neg (x : ℚ) : roundF64 (-x) = -roundF64 x := by
  unfold roundF64
  rw [ulpExp_neg, neg_div, roundHalfEven_neg]
  push_cast
  ring

theorem roundF64_le_of_le_neg_zpow (x : ℚ) (b : Int) (hb : -1074 ≤ b) (h : x ≤ -2 ^ b) :
    roundF64 x ≤ -2 ^ b := by
  have := le_roundF64_of_zpow_le (-x) b hb (by linarith)
  rw [roundF64_neg] at this
  linarith

/-- The comparison of a small integer with the `float64` of an integer is the comparison of
the integers themselves. -/
theorem roundF64_intCast_le_iff (i m : Int) (hm : |m| < 2 ^ 53) :
    roundF64 (i : ℚ) ≤ (m : ℚ) ↔ i ≤ m := by
  have h53 : (2 : ℚ) ^ (53 : Int) = 2 ^ (53 : ℕ) := by norm_num
  have hm1 : (m : ℚ) < 2 ^ (53 : Int) := by
    have : m < 2 ^ 53 := lt_of_le_of_lt (le_abs_self m) hm
    have : (m : ℚ) < 2 ^ (53 : ℕ) := by exact_mod_cast this
    rwa [h53]
  have hm2 : -(2 : ℚ) ^ (53 : Int) < m := by
    have : -(2 ^ 53) < m := by
      have := neg_abs_le m
      omega
    have : -(2 : ℚ) ^ (53 : ℕ) < m := by exact_mod_cast this
    rwa [h53]
  by_cases hi : |i| < 2 ^ 53
  · rw [roundF64_intCast i hi]
    exact Int.cast_le
  · rcases le_or_lt 0 i with h0 | h0
    · have hbig : (2 : Int) ^ 53 ≤ i := by
        rw [abs_of_nonneg h0] at hi
        omega
      have hq : (2 : ℚ) ^ (53 : Int) ≤ i := by
        have : (2 : ℚ) ^ (53 : ℕ) ≤ i := by exact_mod_cast hbig
        rwa [h53]
      have := le_roundF64_of_zpow_le (i : ℚ) 53 (by norm_num) hq
      constructor
      · intro h
        linarith
      · intro h
        have : m < 2 ^ 53 := lt_of_le_of_lt (le_abs_self m) hm
        omega
    · have hbig : i ≤ -(2 : Int) ^ 53 := by
        rw [abs_of_neg h0] at hi
        omega
      have hq : (i : ℚ) ≤ -(2 : ℚ) ^ (53 : Int) := by
        have : (i : ℚ) ≤ -(2 : ℚ) ^ (53 : ℕ) := by exact_mod_cast hbig
        rwa [h53]
      have := roundF64_le_of_le_neg_zpow (i : ℚ) 53 (by norm_num) hq
      constructor
      · intro _
        have := neg_abs_le m
        omega
      · intro _
        linarith


theorem roundF64_le_dyadic (x : ℚ) (a s : Int) (hs : ulpExp x ≤ s) (hx : x ≤ a * 2 ^ s) :
    roundF64 x ≤ a * 2 ^ s := by
  obtain ⟨k, hk⟩ := int_mul_zpow a s (ulpExp x) hs
  rw [hk] at hx ⊢
  exact roundF64_le x k hx

theorem dyadic_le_roundF64 (x : ℚ) (a s : Int) (hs : ulpExp x ≤ s) (hx : (a : ℚ) * 2 ^ s ≤ x) :
    (a : ℚ) * 2 ^ s ≤ roundF64 x := by
  obtain ⟨k, hk⟩ := int_mul_zpow a s (ulpExp x) hs
  rw [hk] at hx ⊢
  exact le_roundF64 x k hx

/-- The fraction of a minute, as `Duration.Minutes()` computes it, stays below 1 by more
than `2 ^ (-36)`. -/
theorem roundF64_fraction (ns : Int) (h0 : 0 ≤ ns) (h1 : ns < 60000000000) :
    0 ≤ roundF64 ((ns : ℚ) / 60000000000) ∧
      roundF64 ((ns : ℚ) / 60000000000) ≤ 1 - 2 ^ (-36 : Int) - 2 ^ (-53 : Int) := by
  have hq0 : (0 : ℚ) ≤ (ns : ℚ) / 60000000000 := by
    have : (0 : ℚ) ≤ ns := by exact_mod_cast h0
    positivity
  have hq1 : (ns : ℚ) / 60000000000 ≤ 1 - 1 / 60000000000 := by
    have : (ns : ℚ) ≤ 60000000000 - 1 := by
      have : ns ≤ 60000000000 - 1 := by omega
      exact_mod_cast this
    rw [div_le_iff₀ (by norm_num)]
    linarith
  by_cases hz : (ns : ℚ) / 60000000000 = 0
  · rw [hz, roundF64_zero]
    norm_num
  · have hj : ulpExp ((ns : ℚ) / 60000000000) ≤ -53 := by
      have := ulpExp_le ((ns : ℚ) / 60000000000) (-1) (by norm_num) (Or.inl hz) (by
        rw [abs_of_nonneg hq0]
        norm_num
        linarith)
      omega
    constructor
    · have := dyadic_le_roundF64 ((ns : ℚ) / 60000000000) 0 (-53) hj (by simpa using hq0)
      simpa using this
    · have hy : ((9007199254609919 : Int) : ℚ) * 2 ^ (-53 : Int)
          = 1 - 2 ^ (-36 : Int) - 2 ^ (-53 : Int) := by norm_num
      rw [← hy]
      apply roundF64_le_dyadic _ _ _ hj
      rw [hy]
      have : (1 : ℚ) - 1 / 60000000000 ≤ 1 - 2 ^ (-36 : Int) - 2 ^ (-53 : Int) := by norm_num
      linarith

theorem le_roundHalfEven_of_lt (t : ℚ) (k : Int) (h : (k : ℚ) - 1 / 2 < t) :
    k ≤ roundHalfEven t := by
  have := roundHalfEven_le_of_lt (-t) (-k) (by push_cast; linarith)
  rw [roundHalfEven_neg] at this
  omega

theorem le_roundF64_of_lt (x : ℚ) (k : Int) (h : ((k : ℚ) - 1 / 2) * 2 ^ ulpExp x < x) :
    (k : ℚ) * 2 ^ ulpExp x ≤ roundF64 x := by
  unfold roundF64
  have hk : k ≤ roundHalfEven (x / 2 ^ ulpExp x) :=
    le_roundHalfEven_of_lt _ k ((lt_div_iff₀ (two_zpow_pos _)).mpr h)
  exact mul_le_mul_of_nonneg_right (by exact_mod_cast hk) (le_of_lt (two_zpow_pos _))

/-- The fraction of a minute, as `Duration.Minutes()` computes it, is above `2 ^ (-36)` when
it is not zero. -/
theorem roundF64_fraction_pos (ns : Int) (h0 : 1 ≤ ns) :
    (17 : ℚ) * 2 ^ (-40 : Int) ≤ roundF64 ((ns : ℚ) / 60000000000) := by
  have hq : (17 : ℚ) * 2 ^ (-40 : Int) ≤ (ns : ℚ) / 60000000000 := by
    have h1 : (1 : ℚ) ≤ ns := by exact_mod_cast h0
    have h2 : (17 : ℚ) * 2 ^ (-40 : Int) ≤ 1 / 60000000000 := by norm_num
    have h3 : (1 : ℚ) / 60000000000 ≤ (ns : ℚ) / 60000000000 :=
      div_le_div_of_nonneg_right h1 (by norm_num)
    linarith
  by_cases hbig : ulpExp ((ns : ℚ) / 60000000000) ≤ -40
  · have := dyadic_le_roundF64 ((ns : ℚ) / 60000000000) 17 (-40) hbig (by exact_mod_cast hq)
    exact_mod_cast this
  · have h1 : (2 : ℚ) ^ (1 : Int) ≤ roundF64 ((ns : ℚ) / 60000000000) := by
      apply le_roundF64_of_zpow_le _ 1 (by norm_num)
      by_contra hlt
      have := ulpExp_le ((ns : ℚ) / 60000000000) 0 (by norm_num) (Or.inr (le_refl _)) (by
        rw [abs_of_nonneg (le_trans (by norm_num) hq)]
        exact not_le.mp hlt)
      omega
    have h2 : (17 : ℚ) * 2 ^ (-40 : Int) ≤ 2 ^ (1 : Int) := by norm_num
    linarith

/-- `Duration.Minutes()` of a duration from 0 to 262144 minutes lies between the whole
minutes `m` and `m + 1`: it is `m` when no nanosecond is left over, and above `m`
otherwise. -/
theorem durationMinutes_bounds (d : Int) (h0 : 0 ≤ d) (h1 : d < 262144 * 60000000000) :
    ((d / 60000000000 : Int) : ℚ) ≤ durationMinutes d ∧
      durationMinutes d < ((d / 60000000000 : Int) : ℚ) + 1 ∧
      (d % 60000000000 = 0 → durationMinutes d = ((d / 60000000000 : Int) : ℚ)) ∧
      (d % 60000000000 ≠ 0 → ((d / 60000000000 : Int) : ℚ) < durationMinutes d) := by
  have hm : Int.tdiv d 60000000000 = d / 60000000000 :=
    Int.tdiv_eq_ediv h0 (by norm_num)
  have hn : Int.tmod d 60000000000 = d % 60000000000 :=
    Int.tmod_eq_emod h0 (by norm_num)
  have hm0 : 0 ≤ d / 60000000000 := Int.ediv_nonneg h0 (by norm_num)
  have hm1 : d / 60000000000 < 262144 := by omega
  have hn0 : 0 ≤ d % 60000000000 := Int.emod_nonneg d (by norm_num)
  have hn1 : d % 60000000000 < 60000000000 := Int.emod_lt_of_pos d (by norm_num)
  unfold durationMinutes
  rw [hm, hn, roundF64_intCast _ (by rw [abs_of_nonneg hm0]; omega),
    roundF64_intCast _ (by rw [abs_of_nonneg hn0]; omega)]
  obtain ⟨hr0, hr1⟩ := roundF64_fraction (d % 60000000000) hn0 hn1
  have hrpos : d % 60000000000 ≠ 0 →
      (17 : ℚ) * 2 ^ (-40 : Int) ≤ roundF64 (((d % 60000000000 : Int) : ℚ) / 60000000000) :=
    fun hne => roundF64_fraction_pos _ (by omega)
  have hrzero : d % 60000000000 = 0 →
      roundF64 (((d % 60000000000 : Int) : ℚ) / 60000000000) = 0 := by
    intro hz
    rw [hz]
    simp [roundF64_zero]
  generalize roundF64 (((d % 60000000000 : Int) : ℚ) / 60000000000) = r at hr0 hr1 hrpos hrzero
  generalize d % 60000000000 = n at hrpos hrzero
  generalize d / 60000000000 = m at hm0 hm1
  have hmq0 : (0 : ℚ) ≤ m := by exact_mod_cast hm0
  have hmq1 : (m : ℚ) + 1 ≤ 262144 := by
    have : m + 1 ≤ 262144 := by omega
    exact_mod_cast this
  have hx0 : (0 : ℚ) ≤ m + r := by linarith
  have hr1' : r ≤ 1 - 1 / 68719476736 - 1 / 9007199254740992 := by
    have h36 : (1 : ℚ) - 2 ^ (-36 : Int) - 2 ^ (-53 : Int)
        = 1 - 1 / 68719476736 - 1 / 9007199254740992 := by norm_num
    rw [← h36]
    exact hr1
  have hj : ulpExp ((m : ℚ) + r) ≤ -35 := by
    have := ulpExp_le ((m : ℚ) + r) 17 (by norm_num) (Or.inr (by norm_num)) (by
      rw [abs_of_nonneg hx0]
      have : (262144 : ℚ) = 2 ^ ((17 : Int) + 1) := by norm_num
      linarith)
    omega
  have hu' : (2 : ℚ) ^ ulpExp ((m : ℚ) + r) ≤ 1 / 34359738368 := by
    have h35 : (2 : ℚ) ^ (-35 : Int) = 1 / 34359738368 := by norm_num
    rw [← h35]
    exact zpow_le_zpow_right₀ (by norm_num) hj
  have hupos := two_zpow_pos (ulpExp ((m : ℚ) + r))
  obtain ⟨k, hk⟩ := int_mul_zpow m 0 (ulpExp ((m : ℚ) + r)) (by omega)
  simp only [zpow_zero, mul_one] at hk
  have hlo : (m : ℚ) ≤ roundF64 ((m : ℚ) + r) := by
    have := dyadic_le_roundF64 ((m : ℚ) + r) m 0 (by omega) (by simpa using hr0)
    simpa using this
  have hhi : roundF64 ((m : ℚ) + r) < (m : ℚ) + 1 := by
    obtain ⟨k1, hk1⟩ := int_mul_zpow (m + 1) 0 (ulpExp ((m : ℚ) + r)) (by omega)
    simp only [zpow_zero, mul_one] at hk1
    have hlt : (m : ℚ) + r
        < (((k1 - 1 : Int) : ℚ) + 1 / 2) * 2 ^ ulpExp ((m : ℚ) + r) := by
      have : (((k1 - 1 : Int) : ℚ) + 1 / 2) * 2 ^ ulpExp ((m : ℚ) + r)
          = (k1 : ℚ) * 2 ^ ulpExp ((m : ℚ) + r) - 2 ^ ulpExp ((m : ℚ) + r) / 2 := by
        push_cast
        ring
      rw [this, ← hk1]
      push_cast
      linarith
    have := roundF64_le_of_lt ((m : ℚ) + r) (k1 - 1) hlt
    have hk' : ((k1 - 1 : Int) : ℚ) * 2 ^ ulpExp ((m : ℚ) + r)
        = (m : ℚ) + 1 - 2 ^ ulpExp ((m : ℚ) + r) := by
      push_cast at hk1 ⊢
      rw [sub_mul, ← hk1]
      ring
    rw [hk'] at this
    linarith
  refine ⟨hlo, hhi, ?_, ?_⟩
  · intro hz
    rw [hrzero hz, add_zero, roundF64_intCast _ (by rw [abs_of_nonneg hm0]; omega)]
  · intro hne
    have hr17 : (17 : ℚ) / 1099511627776 ≤ r := by
      have h40 : (17 : ℚ) * 2 ^ (-40 : Int) = 17 / 1099511627776 := by norm_num
      rw [← h40]
      exact hrpos hne
    have hgt : (((k + 1 : Int) : ℚ) - 1 / 2) * 2 ^ ulpExp ((m : ℚ) + r) < (m : ℚ) + r := by
      have : (((k + 1 : Int) : ℚ) - 1 / 2) * 2 ^ ulpExp ((m : ℚ) + r)
          = (k : ℚ) * 2 ^ ulpExp ((m : ℚ) + r) + 2 ^ ulpExp ((m : ℚ) + r) / 2 := by
        push_cast
        ring
      rw [this, ← hk]
      linarith
    have := le_roundF64_of_lt ((m : ℚ) + r) (k + 1) hgt
    have hk' : ((k + 1 : Int) : ℚ) * 2 ^ ulpExp ((m : ℚ) + r)
        = (m : ℚ) + 2 ^ ulpExp ((m : ℚ) + r) := by
      push_cast
      rw [add_mul, ← hk]
      ring
    rw [hk'] at this
    linarith

theorem durationMinutes_neg (d : Int) : durationMinutes (-d) = -durationMinutes d := by
  have hmod : Int.tmod (-d) 60000000000 = -Int.tmod d 60000000000 := by
    rw [Int.tmod_def, Int.tmod_def, Int.neg_tdiv]
    ring
  unfold durationMinutes
  rw [Int.neg_tdiv, hmod]
  push_cast
  rw [roundF64_neg, roundF64_neg, neg_div, roundF64_neg, ← neg_add, roundF64_neg]

/-- Within 262144 minutes before or after, the floor of the `float64` minutes is the floor
of the exact minutes. -/
theorem floorMinutes_window (d : Int) (h0 : -(262144 * 60000000000) < d)
    (h1 : d < 262144 * 60000000000) :
    floorMinutes d = d / 60000000000 := by
  unfold floorMinutes
  rcases le_or_lt 0 d with hd | hd
  · obtain ⟨hlo, hhi, _, _⟩ := durationMinutes_bounds d hd h1
    rw [Int.floor_eq_iff]
    exact ⟨hlo, hhi⟩
  · obtain ⟨hlo, hhi, hz, hnz⟩ := durationMinutes_bounds (-d) (by omega) (by omega)
    have hneg : durationMinutes d = -durationMinutes (-d) := by
      rw [durationMinutes_neg, neg_neg]
    rw [hneg, Int.floor_eq_iff]
    by_cases hmod : (-d) % 60000000000 = 0
    · have hq : d / 60000000000 = -((-d) / 60000000000) := by omega
      rw [hz hmod, hq]
      push_cast
      constructor <;> linarith
    · have hq : d / 60000000000 = -((-d) / 60000000000) - 1 := by omega
      have := hnz hmod
      rw [hq]
      push_cast
      constructor <;> linarith

theorem roundHalfEven_tie (t : ℚ) (n : Int) (hn : n % 2 = 0)
    (h : t = n + 1 / 2 ∨ t = n - 1 / 2) : roundHalfEven t = n := by
  rcases h with h | h
  · have hf : ⌊t⌋ = n := by
      rw [Int.floor_eq_iff]
      constructor <;> linarith
    unfold roundHalfEven
    rw [hf, if_neg (by linarith), if_neg (by linarith), if_pos hn]
  · have hf : ⌊t⌋ = n - 1 := by
      rw [Int.floor_eq_iff]
      push_cast
      constructor <;> linarith
    unfold roundHalfEven
    rw [hf]
    push_cast
    rw [if_neg (by linarith), if_neg (by linarith), if_neg (by omega)]
    ring

/-- The value of `roundF64` at a positive `x`, from the binary exponent `e` of `x` and the
integer `n` nearest to `x / 2 ^ (e - 52)`. -/
theorem roundF64_eq_pos (x : ℚ) (e n : Int) (he : -1022 ≤ e) (h1 : 2 ^ e ≤ x)
    (h2 : x < 2 ^ (e + 1)) (h3 : (n : ℚ) - 1 / 2 < x / 2 ^ (e - 52))
    (h4 : x / 2 ^ (e - 52) < n + 1 / 2) :
    roundF64 x = n * 2 ^ (e - 52) := by
  have hx : 0 < x := lt_of_lt_of_le (two_zpow_pos e) h1
  exact roundF64_eq x e n he (by rwa [abs_of_pos hx]) (by rwa [abs_of_pos hx]) h3 h4

/-- The value of `roundF64` at a negative `x`, from the value at `-x`. -/
theorem roundF64_eq_neg (x y : ℚ) (h : roundF64 (-x) = y) : roundF64 x = -y := by
  rw [← h, roundF64_neg, neg_neg]

/-- The value of `roundF64` at a positive `x` that lies halfway between two `float64`
values: the one with the even multiple is taken. -/
theorem roundF64_eq_tie (x : ℚ) (e n : Int) (he : -1022 ≤ e) (h1 : 2 ^ e ≤ x)
    (h2 : x < 2 ^ (e + 1)) (hn : n % 2 = 0)
    (h3 : x / 2 ^ (e - 52) = n + 1 / 2 ∨ x / 2 ^ (e - 52) = n - 1 / 2) :
    roundF64 x = n * 2 ^ (e - 52) := by
  have hx : 0 < x := lt_of_lt_of_le (two_zpow_pos e) h1
  unfold roundF64
  rw [ulpExp_eq x e he (by rwa [abs_of_pos hx]) (by rwa [abs_of_pos hx]),
    roundHalfEven_tie _ n hn h3]

theorem roundF64_tenth : roundF64 (1 / 10) = 3602879701896397 / 36028797018963968 := by
  rw [roundF64_eq_pos (1 / 10) (-4) 7205759403792794 (by norm_num) (by norm_num) (by norm_num)
    (by norm_num) (by norm_num)]
  norm_num

theorem roundF64_eight_hundredths :
    roundF64 (8 / 100) = 5764607523034235 / 72057594037927936 := by
  rw [roundF64_eq_pos (8 / 100) (-4) 5764607523034235 (by norm_num) (by norm_num)
    (by norm_num) (by norm_num) (by norm_num)]
  norm_num

theorem roundF64_two_hundredths :
    roundF64 (2 / 100) = 5764607523034235 / 288230376151711744 := by
  rw [roundF64_eq_pos (2 / 100) (-6) 5764607523034235 (by norm_num) (by norm_num)
    (by norm_num) (by norm_num) (by norm_num)]
  norm_num
/-- The ease update in `float64`: the sum `e + 0.1` rounded, minus the subtrahend of the
rating, rounded. -/
theorem easeUpdate_roundF64 (e : ℚ) (d : Difficulty) :
    easeUpdate roundF64 e d
      = roundF64 (roundF64 (e + 3602879701896397 / 36028797018963968) - easeDrop d) := by
  unfold easeUpdate
  rw [roundF64_tenth, roundF64_eight_hundredths, roundF64_two_hundredths]
  cases d
  · have ha : roundF64 (5 - Difficulty.toRat .Again) = 5 := by
      have h : (5 : ℚ) - Difficulty.toRat .Again = ((5 : Int) : ℚ) := by
        simp only [Difficulty.toRat]
        norm_num
      rw [h, roundF64_intCast 5 (by decide)]
      norm_num
    have h1 :
        roundF64 (5 * (5764607523034235 / 288230376151711744))
          = 3602879701896397 / 36028797018963968 := by
      rw [roundF64_eq_pos _ (-4) 7205759403792794 (by norm_num) (by norm_num) (by norm_num)
        (by norm_num) (by norm_num)]
      norm_num
    have h2 :
        roundF64 (5764607523034235 / 72057594037927936 + 3602879701896397 / 36028797018963968)
          = 3242591731706757 / 18014398509481984 := by
      rw [roundF64_eq_tie _ (-3) 6485183463413514 (by norm_num) (by norm_num) (by norm_num)
        (by decide) (Or.inl (by norm_num))]
      norm_num
    have h3 :
        roundF64 (5 * (3242591731706757 / 18014398509481984))
          = 2026619832316723 / 2251799813685248 := by
      rw [roundF64_eq_tie _ (-1) 8106479329266892 (by norm_num) (by norm_num) (by norm_num)
        (by decide) (Or.inl (by norm_num))]
      norm_num
    rw [ha, h1, h2, h3]
    rfl
  · have ha : roundF64 (5 - Difficulty.toRat .Good) = 4 := by
      have h : (5 : ℚ) - Difficulty.toRat .Good = ((4 : Int) : ℚ) := by
        simp only [Difficulty.toRat]
        norm_num
      rw [h, roundF64_intCast 4 (by decide)]
      norm_num
    have h1 :
        roundF64 (4 * (5764607523034235 / 288230376151711744))
          = 5764607523034235 / 72057594037927936 := by
      rw [roundF64_eq_pos _ (-4) 5764607523034235 (by norm_num) (by norm_num) (by norm_num)
        (by norm_num) (by norm_num)]
      norm_num
    have h2 :
        roundF64 (5764607523034235 / 72057594037927936 + 5764607523034235 / 72057594037927936)
          = 5764607523034235 / 36028797018963968 := by
      rw [roundF64_eq_pos _ (-3) 5764607523034235 (by norm_num) (by norm_num) (by norm_num)
        (by norm_num) (by norm_num)]
      norm_num
    have h3 :
        roundF64 (4 * (5764607523034235 / 36028797018963968))
          = 5764607523034235 / 9007199254740992 := by
      rw [roundF64_eq_pos _ (-1) 5764607523034235 (by norm_num) (by norm_num) (by norm_num)
        (by norm_num) (by norm_num)]
      norm_num
    rw [ha, h1, h2, h3]
    rfl
  · have ha : roundF64 (5 - Difficulty.toRat .Easy) = 3 := by
      have h : (5 : ℚ) - Difficulty.toRat .Easy = ((3 : Int) : ℚ) := by
        simp only [Difficulty.toRat]
        norm_num
      rw [h, roundF64_intCast 3 (by decide)]
      norm_num
    have h1 :
        roundF64 (3 * (5764607523034235 / 288230376151711744))
          = 1080863910568919 / 18014398509481984 := by
      rw [roundF64_eq_tie _ (-5) 8646911284551352 (by norm_num) (by norm_num) (by norm_num)
        (by decide) (Or.inl (by norm_num))]
      norm_num
    have h2 :
        roundF64 (5764607523034235 / 72057594037927936 + 1080863910568919 / 18014398509481984)
          = 1261007895663739 / 9007199254740992 := by
      rw [roundF64_eq_tie _ (-3) 5044031582654956 (by norm_num) (by norm_num) (by norm_num)
        (by decide) (Or.inr (by norm_num))]
      norm_num
    have h3 :
        roundF64 (3 * (1261007895663739 / 9007199254740992))
          = 3783023686991217 / 9007199254740992 := by
      rw [roundF64_eq_pos _ (-2) 7566047373982434 (by norm_num) (by norm_num) (by norm_num)
        (by norm_num) (by norm_num)]
      norm_num
    rw [ha, h1, h2, h3]
    rfl

/-! ## Lemmas on the integer model and on `SM2` -/

theorem wrapInt64_of_range (x : Int) (h0 : -(2 ^ 63) ≤ x) (h1 : x < 2 ^ 63) :
    wrapInt64 x = x := by
  unfold wrapInt64
  omega

theorem truncRat_of_nonneg (q : ℚ) (h : 0 ≤ q) : truncRat q = ⌊q⌋ := by
  unfold truncRat
  rw [if_pos h]

theorem truncRat_of_neg (q : ℚ) (h : q < 0) : truncRat q = ⌈q⌉ := by
  unfold truncRat
  rw [if_neg (not_le.mpr h)]

theorem goInt_of_range (q : ℚ) (h0 : -(2 ^ 63 : Int) ≤ truncRat q) (h1 : truncRat q < 2 ^ 63) :
    goInt q = truncRat q := by
  unfold goInt
  rw [if_pos ⟨h0, h1⟩]

theorem SM2With_Interval_of_scored (fl : ℚ → ℚ) (now : Time) (c : Card) (d : Difficulty)
    (hd : d ≠ .Again) (h : c.Score ≠ 0) :
    (SM2With fl now c d).Interval = goInt (fl (fl (c.Interval : ℚ) * c.EaseFactor)) := by
  cases d <;> simp_all [SM2With, sm2Switch]

theorem SM2_Interval_of_scored (now : Time) (c : Card) (d : Difficulty) (hd : d ≠ .Again)
    (h : c.Score ≠ 0) :
    (SM2 now c d).Interval
      = goInt (roundF64 (roundF64 (c.Interval : ℚ) * c.EaseFactor)) :=
  SM2With_Interval_of_scored roundF64 now c d hd h

theorem SM2With_EaseFactor (fl : ℚ → ℚ) (now : Time) (c : Card) (d : Difficulty) :
    (SM2With fl now c d).EaseFactor = easeUpdate fl c.EaseFactor d := by
  cases d <;> simp only [SM2With, sm2Switch] <;> split <;> rfl

theorem roundF64_four : roundF64 4 = 4 := by
  have := roundF64_intCast 4 (by decide)
  simpa using this

theorem roundF64_ten : roundF64 10 = 10 := by
  have := roundF64_intCast 10 (by decide)
  simpa using this

theorem roundF64_twenty : roundF64 20 = 20 := by
  have := roundF64_intCast 20 (by decide)
  simpa using this

/-- The ease update of a `Good` rating on the ease factor 0, in `float64`: the result is
`-607985949695017 / 2^50`, the `float64` printed as `-0.54`. -/
theorem easeUpdate_good_zero :
    easeUpdate roundF64 0 .Good = -(607985949695017 / 1125899906842624) := by
  have h4 : roundF64 (5 - Difficulty.toRat .Good) = 4 := by
    have : (5 : ℚ) - Difficulty.toRat .Good = 4 := by
      simp only [Difficulty.toRat]
      norm_num
    rw [this, roundF64_four]
  have t1 : roundF64 (4 * (5764607523034235 / 288230376151711744))
      = 5764607523034235 / 72057594037927936 := by
    rw [roundF64_eq_pos _ (-4) 5764607523034235 (by norm_num) (by norm_num) (by norm_num)
      (by norm_num) (by norm_num)]
    norm_num
  have t2 : roundF64 (5764607523034235 / 72057594037927936
      + 5764607523034235 / 72057594037927936) = 5764607523034235 / 36028797018963968 := by
    rw [roundF64_eq_pos _ (-3) 5764607523034235 (by norm_num) (by norm_num) (by norm_num)
      (by norm_num) (by norm_num)]
    norm_num
  have t3 : roundF64 (4 * (5764607523034235 / 36028797018963968))
      = 5764607523034235 / 9007199254740992 := by
    rw [roundF64_eq_pos _ (-1) 5764607523034235 (by norm_num) (by norm_num) (by norm_num)
      (by norm_num) (by norm_num)]
    norm_num
  have t4 : roundF64 (0 + 3602879701896397 / 36028797018963968)
      = 3602879701896397 / 36028797018963968 := by
    rw [roundF64_eq_pos _ (-4) 7205759403792794 (by norm_num) (by norm_num) (by norm_num)
      (by norm_num) (by norm_num)]
    norm_num
  have t5 : roundF64 (3602879701896397 / 36028797018963968
      - 5764607523034235 / 9007199254740992) = -(607985949695017 / 1125899906842624) := by
    apply roundF64_eq_neg
    rw [roundF64_eq_pos _ (-1) 4863887597560136 (by norm_num) (by norm_num) (by norm_num)
      (by norm_num) (by norm_num)]
    norm_num
  unfold easeUpdate
  rw [h4, roundF64_two_hundredths, t1, roundF64_eight_hundredths, t2, t3, roundF64_tenth, t4,
    t5]

theorem SM2_good_NewCard (now : Time) (f b : String) :
    SM2 now (NewCard f b) .Good =
      { Front := f, Back := b, Score := 1, Interval := 10,
        EaseFactor := -(607985949695017 / 1125899906842624),
        Status := .Complete, LastReviewed := now } := by
  have h := easeUpdate_good_zero
  simp only [SM2, SM2With, sm2Switch, NewCard, if_true, h]
  simp [wrapInt64]

/-- The product of the second `Good`, in `float64`: `10 * (-0.54)` is the `float64` printed
as `-5.4`, whose integer part is -5. -/
theorem goInt_second_good :
    goInt (roundF64 (roundF64 ((10 : Int) : ℚ) * -(607985949695017 / 1125899906842624))) = -5 := by
  have hp : roundF64 (roundF64 ((10 : Int) : ℚ) * -(607985949695017 / 1125899906842624))
      = -(3039929748475085 / 562949953421312) := by
    have h10 : roundF64 ((10 : Int) : ℚ) = 10 := by
      rw [roundF64_intCast 10 (by decide)]
      norm_num
    rw [h10]
    apply roundF64_eq_neg
    rw [roundF64_eq_pos _ 2 6079859496950170 (by norm_num) (by norm_num) (by norm_num)
      (by norm_num) (by norm_num)]
    norm_num
  have ht : truncRat (-(3039929748475085 / 562949953421312)) = -5 := by
    rw [truncRat_of_neg _ (by norm_num), Int.ceil_eq_iff]
    norm_num
  rw [hp, goInt_of_range _ (by rw [ht]; decide) (by rw [ht]; decide), ht]

theorem SM2_good_good_Interval (t1 t2 : Time) (f b : String) :
    (SM2 t2 (SM2 t1 (NewCard f b) .Good) .Good).Interval = -5 := by
  have hs : (SM2 t1 (NewCard f b) .Good).Score ≠ 0 := by
    rw [SM2_good_NewCard]
    exact one_ne_zero
  rw [SM2_Interval_of_scored _ _ _ (by decide) hs, SM2_good_NewCard]
  exact goInt_second_good

theorem SM2_Score_bounds (now : Time) (c : Card) (d : Difficulty) (h0 : 0 ≤ c.Score)
    (h1 : c.Score + 1 < 2 ^ 63) :
    0 ≤ (SM2 now c d).Score ∧ (SM2 now c d).Score ≤ c.Score + 1 := by
  have hw : wrapInt64 (c.Score + 1) = c.Score + 1 :=
    wrapInt64_of_range _ (by omega) h1
  cases d
  · simp only [SM2, SM2With, sm2Switch]
    omega
  · simp only [SM2, SM2With, sm2Switch]
    split <;> simp only [hw] <;> omega
  · simp only [SM2, SM2With, sm2Switch]
    split <;> simp only [hw] <;> omega

theorem rateAll_Score_bounds (rs : List (Time × Difficulty)) (c : Card) (h0 : 0 ≤ c.Score)
    (h1 : c.Score + rs.length < 2 ^ 63) :
    0 ≤ (rateAll c rs).Score ∧ (rateAll c rs).Score ≤ c.Score + rs.length := by
  induction rs generalizing c with
  | nil => simpa [rateAll] using h0
  | cons r rs ih =>
    have hl : ((r :: rs).length : Int) = rs.length + 1 := by simp
    rw [hl] at h1
    have hb := SM2_Score_bounds r.1 c r.2 h0 (by omega)
    have := ih (SM2 r.1 c r.2) hb.1 (by omega)
    simp only [rateAll]
    rw [hl]
    omega

theorem SM2_again (now : Time) (c : Card) :
    SM2 now c .Again
      = { Front := c.Front, Back := c.Back, Score := 0, Interval := 0,
          EaseFactor := easeUpdate roundF64 c.EaseFactor .Again,
          Status := .Learning, LastReviewed := now } := by
  simp [SM2, SM2With, sm2Switch]

theorem SM2_first (now : Time) (c : Card) (d : Difficulty) (hd : d ≠ .Again)
    (h : c.Score = 0) :
    SM2 now c d
      = { Front := c.Front, Back := c.Back, Score := 1,
          Interval := if d = .Good then 10 else 20,
          EaseFactor := easeUpdate roundF64 c.EaseFactor d,
          Status := .Complete, LastReviewed := now } := by
  cases d <;> simp_all [SM2, SM2With, sm2Switch, wrapInt64]

theorem SM2_scored (now : Time) (c : Card) (d : Difficulty) (hd : d ≠ .Again)
    (h : c.Score ≠ 0) :
    SM2 now c d
      = { Front := c.Front, Back := c.Back, Score := wrapInt64 (c.Score + 1),
          Interval := goInt (roundF64 (roundF64 (c.Interval : ℚ) * c.EaseFactor)),
          EaseFactor := easeUpdate roundF64 c.EaseFactor d,
          Status := .Complete, LastReviewed := now } := by
  cases d <;> simp_all [SM2, SM2With, sm2Switch]

theorem lapsed_step1 :
    SM2 0
      { Front := "2+2", Back := "4", Score := 0, Interval := 0,
        EaseFactor := 0,
        Status := .New, LastReviewed := 0 } .Good
      = { Front := "2+2", Back := "4", Score := 1, Interval := 10,
          EaseFactor := -(607985949695017 / 1125899906842624),
          Status := .Complete, LastReviewed := 0 } := by
  have hE : easeUpdate roundF64 (0) .Good
      = -(607985949695017 / 1125899906842624) := by
    rw [easeUpdate_roundF64]
    simp only [easeDrop]
    have h4 :
        roundF64 (0 + 3602879701896397 / 36028797018963968)
          = 3602879701896397 / 36028797018963968 := by
      rw [roundF64_eq_pos _ (-4) 7205759403792794 (by norm_num) (by norm_num) (by norm_num)
        (by norm_num) (by norm_num)]
      norm_num
    have h5 :
        roundF64 (3602879701896397 / 36028797018963968 - 5764607523034235 / 9007199254740992)
          = -(607985949695017 / 1125899906842624) := by
      apply roundF64_eq_neg
      rw [roundF64_eq_pos _ (-1) 4863887597560136 (by norm_num) (by norm_num) (by norm_num)
        (by norm_num) (by norm_num)]
      norm_num
    rw [h4, h5]
  rw [SM2_first _ _ _ (by decide) rfl]
  simp only [hE]
  rfl

theorem lapsed_step2 :
    SM2 0
      { Front := "2+2", Back := "4", Score := 1, Interval := 10,
        EaseFactor := -(607985949695017 / 1125899906842624),
        Status := .Complete, LastReviewed := 0 } .Easy
      = { Front := "2+2", Back := "4", Score := 2, Interval := -5,
          EaseFactor := -(3873095679538627 / 4503599627370496),
          Status := .Complete, LastReviewed := 0 } := by
  have hE : easeUpdate roundF64 (-(607985949695017 / 1125899906842624)) .Easy
      = -(3873095679538627 / 4503599627370496) := by
    rw [easeUpdate_roundF64]
    simp only [easeDrop]
    have h4 :
        roundF64 (-(607985949695017 / 1125899906842624) + 3602879701896397 / 36028797018963968)
          = -(3963167672086037 / 9007199254740992) := by
      apply roundF64_eq_neg
      rw [roundF64_eq_tie _ (-2) 7926335344172074 (by norm_num) (by norm_num) (by norm_num)
        (by decide) (Or.inr (by norm_num))]
      norm_num
    have h5 :
        roundF64 (-(3963167672086037 / 9007199254740992) - 3783023686991217 / 9007199254740992)
          = -(3873095679538627 / 4503599627370496) := by
      apply roundF64_eq_neg
      rw [roundF64_eq_pos _ (-1) 7746191359077254 (by norm_num) (by norm_num) (by norm_num)
        (by norm_num) (by norm_num)]
      norm_num
    rw [h4, h5]
  have hI :
      goInt (roundF64 (roundF64 (((10 : Int)) : ℚ) * -(607985949695017 / 1125899906842624)))
        = -5 := by
    rw [roundF64_intCast (10) (by decide)]
    have hp :
        roundF64 ((((10 : Int)) : ℚ) * -(607985949695017 / 1125899906842624))
          = -(3039929748475085 / 562949953421312) := by
      apply roundF64_eq_neg
      rw [roundF64_eq_pos _ (2) 6079859496950170 (by norm_num) (by norm_num) (by norm_num)
        (by norm_num) (by norm_num)]
      norm_num
    have ht : truncRat (-(3039929748475085 / 562949953421312)) = -5 := by
      rw [truncRat_of_neg _ (by norm_num), Int.ceil_eq_iff]
      norm_num
    rw [hp, goInt_of_range _ (by rw [ht]; decide) (by rw [ht]; decide), ht]
  rw [SM2_scored _ _ _ (by decide) (by decide)]
  simp only [hE, hI]
  simp [wrapInt64]

theorem lapsed_step3 :
    SM2 0
      { Front := "2+2", Back := "4", Score := 2, Interval := -5,
        EaseFactor := -(3873095679538627 / 4503599627370496),
        Status := .Complete, LastReviewed := 0 } .Easy
      = { Front := "2+2", Back := "4", Score := 3, Interval := 4,
          EaseFactor := -(2657123780148593 / 2251799813685248),
          Status := .Complete, LastReviewed := 0 } := by
  have hE : easeUpdate roundF64 (-(3873095679538627 / 4503599627370496)) .Easy
      = -(2657123780148593 / 2251799813685248) := by
    rw [easeUpdate_roundF64]
    simp only [easeDrop]
    have h4 :
        roundF64 (-(3873095679538627 / 4503599627370496) + 3602879701896397 / 36028797018963968)
          = -(6845471433603155 / 9007199254740992) := by
      apply roundF64_eq_neg
      rw [roundF64_eq_pos _ (-1) 6845471433603155 (by norm_num) (by norm_num) (by norm_num)
        (by norm_num) (by norm_num)]
      norm_num
    have h5 :
        roundF64 (-(6845471433603155 / 9007199254740992) - 3783023686991217 / 9007199254740992)
          = -(2657123780148593 / 2251799813685248) := by
      apply roundF64_eq_neg
      rw [roundF64_eq_pos _ (0) 5314247560297186 (by norm_num) (by norm_num) (by norm_num)
        (by norm_num) (by norm_num)]
      norm_num
    rw [h4, h5]
  have hI :
      goInt (roundF64 (roundF64 (((-5 : Int)) : ℚ) * -(3873095679538627 / 4503599627370496)))
        = 4 := by
    rw [roundF64_intCast (-5) (by decide)]
    have hp :
        roundF64 ((((-5 : Int)) : ℚ) * -(3873095679538627 / 4503599627370496))
          = 1210342399855821 / 281474976710656 := by
      rw [roundF64_eq_pos _ (2) 4841369599423284 (by norm_num) (by norm_num) (by norm_num)
        (by norm_num) (by norm_num)]
      norm_num
    have ht : truncRat (1210342399855821 / 281474976710656) = 4 := by
      rw [truncRat_of_nonneg _ (by norm_num), Int.floor_eq_iff]
      norm_num
    rw [hp, goInt_of_range _ (by rw [ht]; decide) (by rw [ht]; decide), ht]
  rw [SM2_scored _ _ _ (by decide) (by decide)]
  simp only [hE, hI]
  simp [wrapInt64]

theorem lapsed_step4 :
    SM2 0
      { Front := "2+2", Back := "4", Score := 3, Interval := 4,
        EaseFactor := -(2657123780148593 / 2251799813685248),
        Status := .Complete, LastReviewed := 0 } .Again
      = { Front := "2+2", Back := "4", Score := 0, Interval := 0,
          EaseFactor := -(4458563631096791 / 2251799813685248),
          Status := .Learning, LastReviewed := 0 } := by
  have hE : easeUpdate roundF64 (-(2657123780148593 / 2251799813685248)) .Again
      = -(4458563631096791 / 2251799813685248) := by
    rw [easeUpdate_roundF64]
    simp only [easeDrop]
    have h4 :
        roundF64 (-(2657123780148593 / 2251799813685248) + 3602879701896397 / 36028797018963968)
          = -(607985949695017 / 562949953421312) := by
      apply roundF64_eq_neg
      rw [roundF64_eq_pos _ (0) 4863887597560136 (by norm_num) (by norm_num) (by norm_num)
        (by norm_num) (by norm_num)]
      norm_num
    have h5 :
        roundF64 (-(607985949695017 / 562949953421312) - 2026619832316723 / 2251799813685248)
          = -(4458563631096791 / 2251799813685248) := by
      apply roundF64_eq_neg
      rw [roundF64_eq_pos _ (0) 8917127262193582 (by norm_num) (by norm_num) (by norm_num)
        (by norm_num) (by norm_num)]
      norm_num
    rw [h4, h5]
  rw [SM2_again]
  simp only [hE]

theorem lapsed_step5 :
    SM2 0
      { Front := "2+2", Back := "4", Score := 0, Interval := 0,
        EaseFactor := -(4458563631096791 / 2251799813685248),
        Status := .Learning, LastReviewed := 0 } .Easy
      = { Front := "2+2", Back := "4", Score := 1, Interval := 20,
          EaseFactor := -(2589569785738035 / 1125899906842624),
          Status := .Complete, LastReviewed := 0 } := by
  have hE : easeUpdate roundF64 (-(4458563631096791 / 2251799813685248)) .Easy
      = -(2589569785738035 / 1125899906842624) := by
    rw [easeUpdate_roundF64]
    simp only [easeDrop]
    have h4 :
        roundF64 (-(4458563631096791 / 2251799813685248) + 3602879701896397 / 36028797018963968)
          = -(2116691824864133 / 1125899906842624) := by
      apply roundF64_eq_neg
      rw [roundF64_eq_pos _ (0) 8466767299456532 (by norm_num) (by norm_num) (by norm_num)
        (by norm_num) (by norm_num)]
      norm_num
    have h5 :
        roundF64 (-(2116691824864133 / 1125899906842624) - 3783023686991217 / 9007199254740992)
          = -(2589569785738035 / 1125899906842624) := by
      apply roundF64_eq_neg
      rw [roundF64_eq_pos _ (1) 5179139571476070 (by norm_num) (by norm_num) (by norm_num)
        (by norm_num) (by norm_num)]
      norm_num
    rw [h4, h5]
  rw [SM2_first _ _ _ (by decide) rfl]
  simp only [hE]
  rfl

/-- The ratings Good, Easy, Easy, Again, Easy lead from `NewCard` to the card `lapsedCard`. -/
theorem lapsed_reached :
    rateAll (NewCard "2+2" "4")
        [(0, .Good), (0, .Easy), (0, .Easy), (0, .Again), (0, .Easy)]
      = lapsedCard := by
  simp only [rateAll, NewCard]
  rw [lapsed_step1, lapsed_step2, lapsed_step3, lapsed_step4, lapsed_step5]
  rfl

theorem relearn_step1 :
    SM2 0
      { Front := "2+2", Back := "4", Score := 0, Interval := 0,
        EaseFactor := 0,
        Status := .New, LastReviewed := 0 } .Good
      = { Front := "2+2", Back := "4", Score := 1, Interval := 10,
          EaseFactor := -(607985949695017 / 1125899906842624),
          Status := .Complete, LastReviewed := 0 } := by
  have hE : easeUpdate roundF64 (0) .Good
      = -(607985949695017 / 1125899906842624) := by
    rw [easeUpdate_roundF64]
    simp only [easeDrop]
    have h4 :
        roundF64 (0 + 3602879701896397 / 36028797018963968)
          = 3602879701896397 / 36028797018963968 := by
      rw [roundF64_eq_pos _ (-4) 7205759403792794 (by norm_num) (by norm_num) (by norm_num)
        (by norm_num) (by norm_num)]
      norm_num
    have h5 :
        roundF64 (3602879701896397 / 36028797018963968 - 5764607523034235 / 9007199254740992)
          = -(607985949695017 / 1125899906842624) := by
      apply roundF64_eq_neg
      rw [roundF64_eq_pos _ (-1) 4863887597560136 (by norm_num) (by norm_num) (by norm_num)
        (by norm_num) (by norm_num)]
      norm_num
    rw [h4, h5]
  rw [SM2_first _ _ _ (by decide) rfl]
  simp only [hE]
  rfl

theorem relearn_step2 :
    SM2 0
      { Front := "2+2", Back := "4", Score := 1, Interval := 10,
        EaseFactor := -(607985949695017 / 1125899906842624),
        Status := .Complete, LastReviewed := 0 } .Good
      = { Front := "2+2", Back := "4", Score := 2, Interval := -5,
          EaseFactor := -(607985949695017 / 562949953421312),
          Status := .Complete, LastReviewed := 0 } := by
  have hE : easeUpdate roundF64 (-(607985949695017 / 1125899906842624)) .Good
      = -(607985949695017 / 562949953421312) := by
    rw [easeUpdate_roundF64]
    simp only [easeDrop]
    have h4 :
        roundF64 (-(607985949695017 / 1125899906842624) + 3602879701896397 / 36028797018963968)
          = -(3963167672086037 / 9007199254740992) := by
      apply roundF64_eq_neg
      rw [roundF64_eq_tie _ (-2) 7926335344172074 (by norm_num) (by norm_num) (by norm_num)
        (by decide) (Or.inr (by norm_num))]
      norm_num
    have h5 :
        roundF64 (-(3963167672086037 / 9007199254740992) - 5764607523034235 / 9007199254740992)
          = -(607985949695017 / 562949953421312) := by
      apply roundF64_eq_neg
      rw [roundF64_eq_pos _ (0) 4863887597560136 (by norm_num) (by norm_num) (by norm_num)
        (by norm_num) (by norm_num)]
      norm_num
    rw [h4, h5]
  have hI :
      goInt (roundF64 (roundF64 (((10 : Int)) : ℚ) * -(607985949695017 / 1125899906842624)))
        = -5 := by
    rw [roundF64_intCast (10) (by decide)]
    have hp :
        roundF64 ((((10 : Int)) : ℚ) * -(607985949695017 / 1125899906842624))
          = -(3039929748475085 / 562949953421312) := by
      apply roundF64_eq_neg
      rw [roundF64_eq_pos _ (2) 6079859496950170 (by norm_num) (by norm_num) (by norm_num)
        (by norm_num) (by norm_num)]
      norm_num
    have ht : truncRat (-(3039929748475085 / 562949953421312)) = -5 := by
      rw [truncRat_of_neg _ (by norm_num), Int.ceil_eq_iff]
      norm_num
    rw [hp, goInt_of_range _ (by rw [ht]; decide) (by rw [ht]; decide), ht]
  rw [SM2_scored _ _ _ (by decide) (by decide)]
  simp only [hE, hI]
  simp [wrapInt64]

theorem relearn_step3 :
    SM2 0
      { Front := "2+2", Back := "4", Score := 2, Interval := -5,
        EaseFactor := -(607985949695017 / 562949953421312),
        Status := .Complete, LastReviewed := 0 } .Again
      = { Front := "2+2", Back := "4", Score := 0, Interval := 0,
          EaseFactor := -(2116691824864133 / 1125899906842624),
          Status := .Learning, LastReviewed := 0 } := by
  have hE : easeUpdate roundF64 (-(607985949695017 / 562949953421312)) .Again
      = -(2116691824864133 / 1125899906842624) := by
    rw [easeUpdate_roundF64]
    simp only [easeDrop]
    have h4 :
        roundF64 (-(607985949695017 / 562949953421312) + 3602879701896397 / 36028797018963968)
          = -(8827055269646173 / 9007199254740992) := by
      apply roundF64_eq_neg
      rw [roundF64_eq_pos _ (-1) 8827055269646173 (by norm_num) (by norm_num) (by norm_num)
        (by norm_num) (by norm_num)]
      norm_num
    have h5 :
        roundF64 (-(8827055269646173 / 9007199254740992) - 2026619832316723 / 2251799813685248)
          = -(2116691824864133 / 1125899906842624) := by
      apply roundF64_eq_neg
      rw [roundF64_eq_tie _ (0) 8466767299456532 (by norm_num) (by norm_num) (by norm_num)
        (by decide) (Or.inl (by norm_num))]
      norm_num
    rw [h4, h5]
  rw [SM2_again]
  simp only [hE]

theorem relearn_step4 :
    SM2 0
      { Front := "2+2", Back := "4", Score := 0, Interval := 0,
        EaseFactor := -(2116691824864133 / 1125899906842624),
        Status := .Learning, LastReviewed := 0 } .Easy
      = { Front := "2+2", Back := "4", Score := 1, Interval := 20,
          EaseFactor := -(4953959590107545 / 2251799813685248),
          Status := .Complete, LastReviewed := 0 } := by
  have hE : easeUpdate roundF64 (-(2116691824864133 / 1125899906842624)) .Easy
      = -(4953959590107545 / 2251799813685248) := by
    rw [easeUpdate_roundF64]
    simp only [easeDrop]
    have h4 :
        roundF64 (-(2116691824864133 / 1125899906842624) + 3602879701896397 / 36028797018963968)
          = -(4008203668359741 / 2251799813685248) := by
      apply roundF64_eq_neg
      rw [roundF64_eq_pos _ (0) 8016407336719482 (by norm_num) (by norm_num) (by norm_num)
        (by norm_num) (by norm_num)]
      norm_num
    have h5 :
        roundF64 (-(4008203668359741 / 2251799813685248) - 3783023686991217 / 9007199254740992)
          = -(4953959590107545 / 2251799813685248) := by
      apply roundF64_eq_neg
      rw [roundF64_eq_pos _ (1) 4953959590107545 (by norm_num) (by norm_num) (by norm_num)
        (by norm_num) (by norm_num)]
      norm_num
    rw [h4, h5]
  rw [SM2_first _ _ _ (by decide) rfl]
  simp only [hE]
  rfl

theorem relearn_step5 :
    SM2 0
      { Front := "2+2", Back := "4", Score := 1, Interval := 20,
        EaseFactor := -(4953959590107545 / 2251799813685248),
        Status := .Complete, LastReviewed := 0 } .Good
      = { Front := "2+2", Back := "4", Score := 2, Interval := -43,
          EaseFactor := -(6169931489497579 / 2251799813685248),
          Status := .Complete, LastReviewed := 0 } := by
  have hE : easeUpdate roundF64 (-(4953959590107545 / 2251799813685248)) .Good
      = -(6169931489497579 / 2251799813685248) := by
    rw [easeUpdate_roundF64]
    simp only [easeDrop]
    have h4 :
        roundF64 (-(4953959590107545 / 2251799813685248) + 3602879701896397 / 36028797018963968)
          = -(1182194902184755 / 562949953421312) := by
      apply roundF64_eq_neg
      rw [roundF64_eq_pos _ (1) 4728779608739020 (by norm_num) (by norm_num) (by norm_num)
        (by norm_num) (by norm_num)]
      norm_num
    have h5 :
        roundF64 (-(1182194902184755 / 562949953421312) - 5764607523034235 / 9007199254740992)
          = -(6169931489497579 / 2251799813685248) := by
      apply roundF64_eq_neg
      rw [roundF64_eq_pos _ (1) 6169931489497579 (by norm_num) (by norm_num) (by norm_num)
        (by norm_num) (by norm_num)]
      norm_num
    rw [h4, h5]
  have hI :
      goInt (roundF64 (roundF64 (((20 : Int)) : ℚ) * -(4953959590107545 / 2251799813685248)))
        = -43 := by
    rw [roundF64_intCast (20) (by decide)]
    have hp :
        roundF64 ((((20 : Int)) : ℚ) * -(4953959590107545 / 2251799813685248))
          = -(6192449487634431 / 140737488355328) := by
      apply roundF64_eq_neg
      rw [roundF64_eq_pos _ (5) 6192449487634431 (by norm_num) (by norm_num) (by norm_num)
        (by norm_num) (by norm_num)]
      norm_num
    have ht : truncRat (-(6192449487634431 / 140737488355328)) = -43 := by
      rw [truncRat_of_neg _ (by norm_num), Int.ceil_eq_iff]
      norm_num
    rw [hp, goInt_of_range _ (by rw [ht]; decide) (by rw [ht]; decide), ht]
  rw [SM2_scored _ _ _ (by decide) (by decide)]
  simp only [hE, hI]
  simp [wrapInt64]

/-- The ratings Good, Good, Again, Easy, Good lead from `NewCard` to an interval of `-43`:
the ease factor is then the `float64` just above `-2.2`, its product with `20` rounds to
the `float64` just above `-44`, and the conversion discards the fraction. -/
theorem relearn_reached :
    rateAll (NewCard "2+2" "4")
        [(0, .Good), (0, .Good), (0, .Again), (0, .Easy), (0, .Good)]
      = { Front := "2+2", Back := "4", Score := 2, Interval := -43,
          EaseFactor := -(6169931489497579 / 2251799813685248),
          Status := .Complete, LastReviewed := 0 } := by
  simp only [rateAll, NewCard]
  rw [relearn_step1, relearn_step2, relearn_step3, relearn_step4, relearn_step5]

theorem SM2Exact_EaseFactor (now : Time) (c : Card) (d : Difficulty) :
    (SM2Exact now c d).EaseFactor =
      c.EaseFactor + 1 / 10 - (5 - d.toRat) * (8 / 100 + (5 - d.toRat) * (2 / 100)) := by
  rw [SM2Exact, SM2With_EaseFactor]
  simp only [easeUpdate, id]

/-! ## The scheduler: claims C1 to C4 and C10 -/

/-- C1. For every card and clock reading, `SM2` with `Again` leaves the card with status
`Learning`, score 0 and interval 0. -/
theorem C1_again_resets (now : Time) (c : Card) :
    (SM2 now c .Again).Status = .Learning ∧ (SM2 now c .Again).Score = 0 ∧
      (SM2 now c .Again).Interval = 0 := by
  simp [SM2, SM2With, sm2Switch]

/-- C2. For every card with score 0, `SM2` with `Good` gives interval 10 and with `Easy`
interval 20; in both cases the status is `Complete` and the score 1. -/
theorem C2_first_success (now : Time) (c : Card) (h : c.Score = 0) :
    (SM2 now c .Good).Interval = 10 ∧ (SM2 now c .Easy).Interval = 20 ∧
      (SM2 now c .Good).Status = .Complete ∧ (SM2 now c .Easy).Status = .Complete ∧
      (SM2 now c .Good).Score = 1 ∧ (SM2 now c .Easy).Score = 1 := by
  simp [SM2, SM2With, sm2Switch, h, wrapInt64]

/-- C2 at the card `NewCard "2+2" "4"`, whose score is 0. -/
theorem C2_first_success_witness :
    (NewCard "2+2" "4").Score = 0 ∧
      (SM2 0 (NewCard "2+2" "4") .Good).Interval = 10 ∧
      (SM2 0 (NewCard "2+2" "4") .Easy).Interval = 20 ∧
      (SM2 0 (NewCard "2+2" "4") .Good).Status = .Complete ∧
      (SM2 0 (NewCard "2+2" "4") .Easy).Status = .Complete ∧
      (SM2 0 (NewCard "2+2" "4") .Good).Score = 1 ∧
      (SM2 0 (NewCard "2+2" "4") .Easy).Score = 1 :=
  ⟨rfl, C2_first_success 0 (NewCard "2+2" "4") rfl⟩

/-- C3 fails as stated. The card `NewCard "2+2" "4"` rated `Good` once has score 1,
interval 10 and the ease factor `-607985949695017 / 2^50` (the `float64` printed as
`-0.54`); rated `Good` again its interval is -5, while the floor of `10 * (-0.54...)`
is -6. -/
theorem C3_floor_counterexample :
    0 < (SM2 0 (NewCard "2+2" "4") .Good).Score ∧
      (SM2 0 (NewCard "2+2" "4") .Good).Interval = 10 ∧
      (SM2 0 (NewCard "2+2" "4") .Good).EaseFactor
        = -(607985949695017 / 1125899906842624) ∧
      (SM2 0 (SM2 0 (NewCard "2+2" "4") .Good) .Good).Interval = -5 ∧
      ⌊((SM2 0 (NewCard "2+2" "4") .Good).Interval : ℚ)
          * (SM2 0 (NewCard "2+2" "4") .Good).EaseFactor⌋ = -6 := by
  refine ⟨?_, ?_, ?_, SM2_good_good_Interval 0 0 "2+2" "4", ?_⟩
  · rw [SM2_good_NewCard]
    decide
  · rw [SM2_good_NewCard]
  · rw [SM2_good_NewCard]
  · rw [SM2_good_NewCard]
    show ⌊((10 : Int) : ℚ) * (-(607985949695017 / 1125899906842624))⌋ = -6
    rw [Int.floor_eq_iff]
    norm_num

/-- C3, amended. For every card with score above 0, finite ease factor `e` and interval `i`
before the call, `SM2` with `Good` gives as interval the `float64` product `float64(i) * e`
(the exact product of the `float64` of `i` and of `e`, rounded to the nearest `float64`)
with its fraction discarded, as long as that integer is in the range of `int`: the floor of
the `float64` product when it is not negative and its ceiling when it is negative. (With an
infinite ease factor and the interval 0 the product would be a NaN.) -/
theorem C3_good_interval (now : Time) (c : Card) (hs : 0 < c.Score)
    (_he : |c.EaseFactor| < 2 ^ 1024)
    (hlo : -(2 ^ 63 : Int)
      ≤ truncRat (roundF64 (roundF64 (c.Interval : ℚ) * c.EaseFactor)))
    (hhi : truncRat (roundF64 (roundF64 (c.Interval : ℚ) * c.EaseFactor)) < 2 ^ 63) :
    (0 ≤ roundF64 (roundF64 (c.Interval : ℚ) * c.EaseFactor) →
        (SM2 now c .Good).Interval
          = ⌊roundF64 (roundF64 (c.Interval : ℚ) * c.EaseFactor)⌋) ∧
      (roundF64 (roundF64 (c.Interval : ℚ) * c.EaseFactor) < 0 →
        (SM2 now c .Good).Interval
          = ⌈roundF64 (roundF64 (c.Interval : ℚ) * c.EaseFactor)⌉) := by
  have hi : (SM2 now c .Good).Interval
      = truncRat (roundF64 (roundF64 (c.Interval : ℚ) * c.EaseFactor)) := by
    rw [SM2_Interval_of_scored now c .Good (by decide) (ne_of_gt hs), goInt_of_range _ hlo hhi]
  constructor
  · intro h
    rw [hi, truncRat_of_nonneg _ h]
  · intro h
    rw [hi, truncRat_of_neg _ h]

/-- C3 amended, at two cards with score 1. With interval 10 and ease factor 1/4 the
`float64` product is 5/2 and the new interval is 2. With interval 20 and the ease factor
`-2589569785738035 / 2^50` the exact product lies halfway between two `float64` values and
rounds to -46: the new interval is -46, while the exact product rounded toward zero
is -45. -/
theorem C3_good_interval_witness :
    0 < scoredCard.Score ∧ (SM2 0 scoredCard .Good).Interval = 2 ∧
      |scoredCard.EaseFactor| < 2 ^ 1024 ∧
      0 < lapsedCard.Score ∧ (SM2 0 lapsedCard .Good).Interval = -46 ∧
      |lapsedCard.EaseFactor| < 2 ^ 1024 ∧
      truncRat ((lapsedCard.Interval : ℚ) * lapsedCard.EaseFactor) = -45 := by
  have hp : roundF64 (roundF64 (scoredCard.Interval : ℚ) * scoredCard.EaseFactor) = 5 / 2 := by
    show roundF64 (roundF64 ((10 : Int) : ℚ) * (1 / 4)) = 5 / 2
    rw [roundF64_intCast 10 (by decide),
      roundF64_eq_pos _ 1 5629499534213120 (by norm_num) (by norm_num) (by norm_num)
        (by norm_num) (by norm_num)]
    norm_num
  have hf : ⌊(5 / 2 : ℚ)⌋ = 2 := by
    rw [Int.floor_eq_iff]
    norm_num
  have ht : truncRat (5 / 2) = 2 := by
    rw [truncRat_of_nonneg _ (by norm_num), hf]
  have hp2 : roundF64 (roundF64 (lapsedCard.Interval : ℚ) * lapsedCard.EaseFactor) = -46 := by
    show roundF64 (roundF64 ((20 : Int) : ℚ) * (-(2589569785738035 / 1125899906842624))) = -46
    rw [roundF64_intCast 20 (by decide)]
    have : (-46 : ℚ) = -(46 : ℚ) := rfl
    apply roundF64_eq_neg
    rw [roundF64_eq_tie _ 5 6473924464345088 (by norm_num) (by norm_num) (by norm_num)
      (by decide) (Or.inr (by norm_num))]
    norm_num
  have hc : ⌈(-46 : ℚ)⌉ = -46 := by
    rw [Int.ceil_eq_iff]
    norm_num
  have ht2 : truncRat (-46) = -46 := by
    rw [truncRat_of_neg _ (by norm_num), hc]
  have hex : truncRat ((lapsedCard.Interval : ℚ) * lapsedCard.EaseFactor) = -45 := by
    show truncRat (((20 : Int) : ℚ) * (-(2589569785738035 / 1125899906842624))) = -45
    rw [truncRat_of_neg _ (by norm_num), Int.ceil_eq_iff]
    norm_num
  have he : |scoredCard.EaseFactor| < 2 ^ 1024 := by
    show |(1 / 4 : ℚ)| < 2 ^ 1024
    rw [abs_lt]
    constructor <;> norm_num
  have he2 : |lapsedCard.EaseFactor| < 2 ^ 1024 := by
    show |(-(2589569785738035 / 1125899906842624) : ℚ)| < 2 ^ 1024
    rw [abs_lt]
    constructor <;> norm_num
  refine ⟨by decide, ?_, he, by decide, ?_, he2, hex⟩
  · rw [(C3_good_interval 0 scoredCard (by decide) he (by rw [hp, ht]; decide)
      (by rw [hp, ht]; decide)).1 (by rw [hp]; norm_num), hp, hf]
  · rw [(C3_good_interval 0 lapsedCard (by decide) he2 (by rw [hp2, ht2]; decide)
      (by rw [hp2, ht2]; decide)).2 (by rw [hp2]; norm_num), hp2, hc]

/-- C4 fails as stated. With the arithmetic taken exactly, rating the card
`NewCard "2+2" "4"` (ease factor 0) with `Good` leaves the ease factor -27/50 and with
`Easy` the ease factor -8/25: both below the ease factor before, not above. In `float64`
too, `Good` leaves the ease factor `-607985949695017 / 2^50`, below the one before. -/
theorem C4_ease_counterexample :
    (NewCard "2+2" "4").EaseFactor = 0 ∧
      (SM2Exact 0 (NewCard "2+2" "4") .Good).EaseFactor = -(27 / 50) ∧
      (SM2Exact 0 (NewCard "2+2" "4") .Easy).EaseFactor = -(8 / 25) ∧
      ¬ ((NewCard "2+2" "4").EaseFactor < (SM2Exact 0 (NewCard "2+2" "4") .Good).EaseFactor) ∧
      ¬ ((NewCard "2+2" "4").EaseFactor < (SM2Exact 0 (NewCard "2+2" "4") .Easy).EaseFactor) ∧
      (SM2 0 (NewCard "2+2" "4") .Good).EaseFactor = -(607985949695017 / 1125899906842624) ∧
      ¬ ((NewCard "2+2" "4").EaseFactor < (SM2 0 (NewCard "2+2" "4") .Good).EaseFactor) := by
  have hg : (SM2Exact 0 (NewCard "2+2" "4") .Good).EaseFactor = -(27 / 50) := by
    rw [SM2Exact_EaseFactor]
    simp only [NewCard, Difficulty.toRat]
    norm_num
  have he : (SM2Exact 0 (NewCard "2+2" "4") .Easy).EaseFactor = -(8 / 25) := by
    rw [SM2Exact_EaseFactor]
    simp only [NewCard, Difficulty.toRat]
    norm_num
  have hf : (SM2 0 (NewCard "2+2" "4") .Good).EaseFactor
      = -(607985949695017 / 1125899906842624) := by
    rw [SM2_good_NewCard]
  refine ⟨rfl, hg, he, ?_, ?_, hf, ?_⟩
  · rw [hg]
    show ¬ ((0 : ℚ) < -(27 / 50))
    norm_num
  · rw [he]
    show ¬ ((0 : ℚ) < -(8 / 25))
    norm_num
  · rw [hf]
    show ¬ ((0 : ℚ) < -(607985949695017 / 1125899906842624))
    norm_num

/-- C4, amended. For every card, the ease-factor update of `SM2` moves the ease factor
strictly downward for each of the three ratings: by 4/5 for `Again`, by 27/50 for `Good`
and by 8/25 for `Easy` (arithmetic taken exactly). -/
theorem C4_ease_moves_down (now : Time) (c : Card) :
    (SM2Exact now c .Again).EaseFactor = c.EaseFactor - 4 / 5 ∧
      (SM2Exact now c .Good).EaseFactor = c.EaseFactor - 27 / 50 ∧
      (SM2Exact now c .Easy).EaseFactor = c.EaseFactor - 8 / 25 ∧
      (SM2Exact now c .Again).EaseFactor < c.EaseFactor ∧
      (SM2Exact now c .Good).EaseFactor < c.EaseFactor ∧
      (SM2Exact now c .Easy).EaseFactor < c.EaseFactor := by
  have ha : (SM2Exact now c .Again).EaseFactor = c.EaseFactor - 4 / 5 := by
    rw [SM2Exact_EaseFactor]
    simp only [Difficulty.toRat]
    ring
  have hg : (SM2Exact now c .Good).EaseFactor = c.EaseFactor - 27 / 50 := by
    rw [SM2Exact_EaseFactor]
    simp only [Difficulty.toRat]
    ring
  have he : (SM2Exact now c .Easy).EaseFactor = c.EaseFactor - 8 / 25 := by
    rw [SM2Exact_EaseFactor]
    simp only [Difficulty.toRat]
    ring
  refine ⟨ha, hg, he, ?_, ?_, ?_⟩
  · rw [ha]
    linarith
  · rw [hg]
    linarith
  · rw [he]
    linarith

/-- C10 fails as stated. The card `NewCard "2+2" "4"` rated `Good` twice has interval -5. -/
theorem C10_interval_counterexample :
    (rateAll (NewCard "2+2" "4") [(0, .Good), (600000000000, .Good)]).Interval = -5 ∧
      ¬ (0 ≤ (rateAll (NewCard "2+2" "4") [(0, .Good), (600000000000, .Good)]).Interval) := by
  have h : (rateAll (NewCard "2+2" "4") [(0, .Good), (600000000000, .Good)]).Interval = -5 :=
    SM2_good_good_Interval 0 600000000000 "2+2" "4"
  refine ⟨h, ?_⟩
  rw [h]
  decide

/-- C10, amended. For every card created by `NewCard` and every sequence of fewer than
2^63 ratings applied with `SM2`, the score after the sequence is not negative (it is at
most the number of ratings), and the interval is not negative after a sequence of at most
one rating. -/
theorem C10_score_nonneg (front back : String) (rs : List (Time × Difficulty))
    (hlen : (rs.length : Int) < 2 ^ 63) :
    0 ≤ (rateAll (NewCard front back) rs).Score ∧
      (rateAll (NewCard front back) rs).Score ≤ rs.length ∧
      (rs.length ≤ 1 → 0 ≤ (rateAll (NewCard front back) rs).Interval) := by
  have hs := rateAll_Score_bounds rs (NewCard front back) (le_refl _)
    (by show (0 : Int) + rs.length < 2 ^ 63; omega)
  refine ⟨hs.1, by simpa [NewCard] using hs.2, ?_⟩
  intro h1
  rcases rs with _ | ⟨⟨t, d⟩, _ | ⟨r2, rs⟩⟩
  · simp [rateAll, NewCard]
  · cases d <;> simp [rateAll, SM2, SM2With, sm2Switch, NewCard]
  · simp at h1

/-- C10 amended, at the ratings `Good`, `Again`, `Easy`. -/
theorem C10_score_nonneg_witness :
    0 ≤ (rateAll (NewCard "2+2" "4") [(0, .Good), (1, .Again), (2, .Easy)]).Score ∧
      (rateAll (NewCard "2+2" "4") [(0, .Good), (1, .Again), (2, .Easy)]).Score
        ≤ ([(0, .Good), (1, .Again), (2, .Easy)] : List (Time × Difficulty)).length ∧
      (([(0, .Good), (1, .Again), (2, .Easy)] : List (Time × Difficulty)).length ≤ 1 →
        0 ≤ (rateAll (NewCard "2+2" "4") [(0, .Good), (1, .Again), (2, .Easy)]).Interval) :=
  C10_score_nonneg "2+2" "4" [(0, .Good), (1, .Again), (2, .Easy)] (by decide)


/-! ## Lemmas on the due-set loop -/

theorem reviewStep_eq (now : Time) (st : Heap × List Ptr) (p : Ptr) :
    reviewStep now st p =
      if isDue now (st.1 p) then
        (if (st.1 p).Status = .Complete then
            Function.update st.1 p { st.1 p with Status := .Review }
          else st.1, st.2 ++ [p])
      else st := by
  unfold reviewStep isDue
  by_cases h1 : (st.1 p).Status = .New
  · simp [h1]
  · by_cases h2 : intervalElapsed now (st.1 p) = true
    · simp [h1, h2]
    · simp [h1, h2]

theorem isDue_demote (now : Time) (c : Card) (h : c.Status = .Complete) :
    isDue now { c with Status := .Review } = isDue now c := by
  simp [isDue, intervalElapsed, h]

theorem reviewStep_isDue (now : Time) (st : Heap × List Ptr) (p q : Ptr) :
    isDue now ((reviewStep now st p).1 q) = isDue now (st.1 q) := by
  rw [reviewStep_eq]
  by_cases he : isDue now (st.1 p) = true
  · rw [if_pos he]
    by_cases hc : (st.1 p).Status = .Complete
    · simp only [if_pos hc]
      by_cases hq : q = p
      · subst hq
        rw [Function.update_same, isDue_demote _ _ hc]
      · rw [Function.update_noteq hq]
    · simp only [if_neg hc]
  · rw [if_neg he]

theorem reviewStep_snd (now : Time) (st : Heap × List Ptr) (p : Ptr) :
    (reviewStep now st p).2 = st.2 ++ (if isDue now (st.1 p) then [p] else []) := by
  rw [reviewStep_eq]
  by_cases he : isDue now (st.1 p) = true
  · simp [he]
  · simp [he]

theorem foldl_reviewStep (now : Time) (h : Heap) (items : List Ptr) :
    ∀ st : Heap × List Ptr, (∀ q, isDue now (st.1 q) = isDue now (h q)) →
      (items.foldl (reviewStep now) st).2
        = st.2 ++ items.filter (fun p => isDue now (h p)) := by
  induction items with
  | nil => intro st _; simp
  | cons p ps ih =>
    intro st hst
    rw [List.foldl_cons, ih (reviewStep now st p)
      (fun q => by rw [reviewStep_isDue, hst q]), reviewStep_snd, hst p]
    by_cases he : isDue now (h p) = true
    · simp [List.filter_cons, he]
    · simp [List.filter_cons, he]

/-- What `GetReviewCards` returns: the shuffle of the items whose card passes the test of
the loop, in the order of the deck. -/
theorem GetReviewCards_snd (shuffle : List Ptr → List Ptr) (now : Time) (h : Heap) (d : Deck) :
    (GetReviewCards shuffle now h d).2
      = shuffle (d.Cards.items.filter (fun p => isDue now (h p))) := by
  unfold GetReviewCards
  simp only
  rw [foldl_reviewStep now h d.Cards.items (h, []) (fun _ => rfl)]
  simp

theorem GetReviewCards_perm (shuffle : List Ptr → List Ptr)
    (hshuffle : ∀ l, (shuffle l).Perm l) (now : Time) (h : Heap) (d : Deck) :
    (GetReviewCards shuffle now h d).2.Perm
        (d.Cards.items.filter (fun p => isDue now (h p))) := by
  rw [GetReviewCards_snd]
  exact hshuffle _

/-- The floor of the exact minutes is the integer quotient by the nanoseconds of a
minute. -/
theorem minutesElapsed_eq_ediv (now last : Time) :
    minutesElapsed now last = (now - last) / 60000000000 := by
  unfold minutesElapsed
  rw [Int.floor_eq_iff]
  constructor
  · rw [le_div_iff₀ (by norm_num)]
    have := Int.ediv_mul_le (now - last) (show (60000000000 : Int) ≠ 0 by norm_num)
    exact_mod_cast this
  · rw [div_lt_iff₀ (by norm_num)]
    have := Int.lt_ediv_add_one_mul_self (now - last)
      (show (0 : Int) < 60000000000 by norm_num)
    exact_mod_cast this

theorem eligible_eq_ediv (now : Time) (c : Card) :
    eligible now c
      = (decide (c.Status = .New)
          || decide (c.Interval ≤ (now - c.LastReviewed) / 60000000000)) := by
  unfold eligible
  rw [minutesElapsed_eq_ediv]

theorem window_bounds (x : Int) (h0 : -(262144 * 60000000000) < x)
    (h1 : x < 262144 * 60000000000) :
    ¬ x < -(2 ^ 63) ∧ ¬ 2 ^ 63 - 1 < x ∧ |x / 60000000000| < 2 ^ 53 := by
  refine ⟨by omega, by omega, ?_⟩
  rw [abs_lt]
  constructor <;> omega

/-- For a card last reviewed less than 262144 minutes before or after `now`, the test of
the loop, made in `float64`, is the eligibility of the specification. -/
theorem isDue_eq_eligible (now : Time) (c : Card)
    (hw : c.Status ≠ .New →
      -(262144 * 60000000000) < now - c.LastReviewed ∧
        now - c.LastReviewed < 262144 * 60000000000) :
    isDue now c = eligible now c := by
  by_cases hn : c.Status = .New
  · simp [isDue, eligible, hn]
  · obtain ⟨h0, h1⟩ := hw hn
    obtain ⟨hs1, hs2, hm⟩ := window_bounds (now - c.LastReviewed) h0 h1
    have hsub : timeSub now c.LastReviewed = now - c.LastReviewed := by
      unfold timeSub
      rw [if_neg hs1, if_neg hs2]
    have hcmp := roundF64_intCast_le_iff c.Interval ((now - c.LastReviewed) / 60000000000) hm
    rw [eligible_eq_ediv]
    simp only [isDue, intervalElapsed, hsub, floorMinutes_window _ h0 h1, hn, decide_False,
      Bool.false_or]
    exact decide_eq_decide.mpr hcmp

theorem filter_isDue_eq (now : Time) (h : Heap) (items : List Ptr)
    (hw : ∀ p ∈ items, (h p).Status ≠ .New →
      -(262144 * 60000000000) < now - (h p).LastReviewed ∧
        now - (h p).LastReviewed < 262144 * 60000000000) :
    items.filter (fun p => isDue now (h p)) = items.filter (fun p => eligible now (h p)) :=
  List.filter_congr (fun p hp => isDue_eq_eligible now (h p) (hw p hp))

/-- The due list of the deck of four cards, ten minutes after the zero time, with the
shuffle that reverses the list. -/
theorem demoDeck_due :
    (GetReviewCards List.reverse 600000000000 demoHeap demoDeck).2 = [2, 1, 0] := by
  rw [GetReviewCards_snd, filter_isDue_eq _ _ _ (by decide)]
  simp only [eligible_eq_ediv]
  decide

theorem foldl_updateStatusStep (h : Heap) (items : List Ptr) :
    ∀ st : Deck × List Ptr,
      (items.foldl (updateStatusStep h) st).2 = st.2 ++ items ∧
      (items.foldl (updateStatusStep h) st).1.Cards = st.1.Cards ∧
      (items.foldl (updateStatusStep h) st).1.searching = st.1.searching ∧
      (items.foldl (updateStatusStep h) st).1.reviewData = st.1.reviewData ∧
      (items.foldl (updateStatusStep h) st).1.deletedCards = st.1.deletedCards := by
  induction items with
  | nil => intro st; simp
  | cons p ps ih =>
    intro st
    rw [List.foldl_cons]
    obtain ⟨h1, h2, h3, h4, h5⟩ := ih (updateStatusStep h st p)
    rw [h1, h2, h3, h4, h5]
    unfold updateStatusStep
    cases (h p).Status <;> simp

theorem UpdateStatus_items (w : Widget) (h : Heap) (d : Deck) :
    (UpdateStatus w h d).Cards.items = d.Cards.items := by
  unfold UpdateStatus
  simp only [ListModel.SetItems, ListModel.after]
  rw [(foldl_updateStatusStep h d.Cards.items _).1]
  simp

theorem UpdateStatus_searching (w : Widget) (h : Heap) (d : Deck) :
    (UpdateStatus w h d).searching = d.searching := by
  unfold UpdateStatus
  simp only
  rw [(foldl_updateStatusStep h d.Cards.items _).2.2.1]

theorem UpdateStatus_reviewData (w : Widget) (h : Heap) (d : Deck) :
    (UpdateStatus w h d).reviewData = d.reviewData := by
  unfold UpdateStatus
  simp only
  rw [(foldl_updateStatusStep h d.Cards.items _).2.2.2.1]

theorem UpdateStatus_deletedCards (w : Widget) (h : Heap) (d : Deck) :
    (UpdateStatus w h d).deletedCards = d.deletedCards := by
  unfold UpdateStatus
  simp only
  rw [(foldl_updateStatusStep h d.Cards.items _).2.2.2.2]

/-! ## Lemmas on `Update` -/

theorem afterSwitch_idle (w : Widget) (cli : Bool) (msg : Msg) (s : World)
    (hr : s.d.reviewData.reviewing = false) :
    afterSwitch w cli msg s
      = some ({ s with d := { s.d with Cards := s.d.Cards.Update w msg } }, .deck) := by
  simp [afterSwitch, hr]

theorem Update_delete (w : Widget) (cli : Bool) (now : Time) (s : World)
    (hs : s.d.searching = false) (hr : s.d.reviewData.reviewing = false)
    (hk : s.d.Cards.index < s.d.Cards.items.length) :
    ∃ s1, Update w cli now .Delete s = some (s1, .deck) ∧
      s1.heap = s.heap ∧
      s1.d.Cards.items = s.d.Cards.items.eraseIdx s.d.Cards.index ∧
      s1.d.deletedCards = s.d.deletedCards ++ [s.d.Cards.items[s.d.Cards.index]] ∧
      s1.d.searching = false ∧ s1.d.reviewData.reviewing = false := by
  simp only [Update, hs, hr, Bool.not_false, Bool.and_self, if_true]
  rw [List.get?_eq_get hk]
  simp only
  rw [afterSwitch_idle _ _ _ _ (by simp [UpdateStatus_reviewData, hr])]
  refine ⟨_, rfl, rfl, ?_, ?_, ?_, ?_⟩
  · simp [ListModel.Update, ListModel.after, UpdateStatus_items, ListModel.RemoveItem]
  · simp [UpdateStatus_deletedCards]
  · simp [UpdateStatus_searching, hs]
  · simp [UpdateStatus_reviewData, hr]

theorem Update_undo (w : Widget) (cli : Bool) (now : Time) (s : World) (p : Ptr)
    (l : List Ptr) (hd : s.d.deletedCards = l ++ [p])
    (hs : s.d.searching = false) (hr : s.d.reviewData.reviewing = false) :
    ∃ s2, Update w cli now .Undo s = some (s2, .deck) ∧
      s2.heap = s.heap ∧
      s2.d.Cards.items = p :: s.d.Cards.items ∧
      s2.d.deletedCards = l := by
  simp only [Update, hd, List.getLast?_concat, hs, hr, Bool.not_false, Bool.and_self, if_true]
  rw [afterSwitch_idle _ _ _ _ (by simp [hr])]
  refine ⟨_, rfl, rfl, ?_, ?_⟩
  · simp only [ListModel.Update, ListModel.after, ListModel.InsertItem]
    cases s.d.Cards.items <;> simp
  · simp [hd]

/-- C9. For every deck that is neither searching nor reviewing and whose selected index
`k` is an index of its card list, handling the Delete key and then the Undo key in
`Update` leaves the card list equal to the card that was at `k` followed by the original
list without position `k`, leaves the memory of the cards (so every scheduling field of
the card) unchanged, and leaves the undo stack as it was before the deletion. -/
theorem C9_delete_then_undo (w : Widget) (cli : Bool) (now1 now2 : Time) (s : World)
    (hs : s.d.searching = false) (hr : s.d.reviewData.reviewing = false)
    (hk : s.d.Cards.index < s.d.Cards.items.length) :
    ∃ s1 s2, Update w cli now1 .Delete s = some (s1, .deck) ∧
      Update w cli now2 .Undo s1 = some (s2, .deck) ∧
      s2.d.Cards.items
        = s.d.Cards.items[s.d.Cards.index] :: s.d.Cards.items.eraseIdx s.d.Cards.index ∧
      s2.heap = s.heap ∧
      s2.d.deletedCards = s.d.deletedCards := by
  obtain ⟨s1, h1, hh1, hi1, hd1, hs1, hr1⟩ := Update_delete w cli now1 s hs hr hk
  obtain ⟨s2, h2, hh2, hi2, hd2⟩ := Update_undo w cli now2 s1 _ _ hd1 hs1 hr1
  exact ⟨s1, s2, h1, h2, by rw [hi2, hi1], by rw [hh2, hh1], hd2⟩


/-- C9 at the deck of four cards with the third selected: after Delete and Undo the
card list is `[2, 0, 1, 3]`. -/
theorem C9_delete_then_undo_witness :
    demoDeck.searching = false ∧ demoDeck.reviewData.reviewing = false ∧
      demoDeck.Cards.index < demoDeck.Cards.items.length ∧
      (∃ s1 s2, Update demoWidget false 0 .Delete ⟨demoHeap, demoDeck⟩ = some (s1, .deck) ∧
        Update demoWidget false 1 .Undo s1 = some (s2, .deck) ∧
        s2.d.Cards.items = [2, 0, 1, 3] ∧
        s2.heap = demoHeap ∧
        s2.d.deletedCards = []) :=
  ⟨rfl, rfl, by decide,
    C9_delete_then_undo demoWidget false 0 1 ⟨demoHeap, demoDeck⟩ rfl rfl (by decide)⟩

/-! ## Lemmas on lines -/

theorem splitLines_append_nl (l rest : List Char) (h : '\n' ∉ l) :
    splitLines (l ++ '\n' :: rest) = l :: splitLines rest := by
  induction l with
  | nil => simp [splitLines]
  | cons c l ih =>
    have hc : c ≠ '\n' := fun e => h (by simp [e])
    have hl : '\n' ∉ l := fun e => h (by simp [e])
    simp [splitLines, hc, ih hl]

theorem splitLines_terminated (ls : List (List Char)) (h : ∀ l ∈ ls, '\n' ∉ l)
    (rest : List Char) :
    splitLines ((ls.map (fun l => l ++ ['\n'])).flatten ++ rest) = ls ++ splitLines rest := by
  induction ls with
  | nil => simp
  | cons l ls ih =>
    have h1 : '\n' ∉ l := h l (by simp)
    have h2 : ∀ l' ∈ ls, '\n' ∉ l' := fun l' hl' => h l' (by simp [hl'])
    simp only [List.map_cons, List.flatten_cons, List.append_assoc, List.singleton_append,
      List.cons_append, List.nil_append]
    rw [splitLines_append_nl _ _ h1, ih h2]

theorem dropCR_append (a b : List Char) (ha : a.getLast? ≠ some '\r') :
    dropCR (a ++ b) = a ++ dropCR b := by
  by_cases hb : b = []
  · subst hb
    simp [dropCR, ha]
  · unfold dropCR
    rw [List.getLast?_append_of_ne_nil _ hb]
    split
    · rw [List.dropLast_append_of_ne_nil _ hb]
    · rfl

theorem toDigitsCore_no_nl (fuel : Nat) :
    ∀ (n : Nat) (ds : List Char), '\n' ∉ ds → '\n' ∉ Nat.toDigitsCore 10 fuel n ds := by
  have hd : ∀ d, d < 10 → Nat.digitChar d ≠ '\n' := by
    intro d hd
    interval_cases d <;> decide
  induction fuel with
  | zero => intro n ds h; simpa [Nat.toDigitsCore] using h
  | succ k ih =>
    intro n ds h
    have h1 : '\n' ∉ Nat.digitChar (n % 10) :: ds := by
      simp only [List.mem_cons, not_or]
      exact ⟨fun e => hd _ (Nat.mod_lt _ (by decide)) e.symm, h⟩
    unfold Nat.toDigitsCore
    simp only
    split
    · exact h1
    · exact ih _ _ h1

theorem toString_nat_no_nl (n : Nat) : '\n' ∉ (toString n).data := by
  show '\n' ∉ (Nat.repr n).data
  unfold Nat.repr Nat.toDigits
  simpa [List.asString] using toDigitsCore_no_nl (n + 1) n [] (by simp)

theorem toString_int_no_nl (i : Int) : '\n' ∉ (toString i).data := by
  cases i with
  | ofNat m => exact toString_nat_no_nl m
  | negSucc m =>
    show '\n' ∉ ("-" ++ toString m.succ).data
    rw [String.data_append]
    simp only [List.mem_append, not_or]
    exact ⟨by decide, toString_nat_no_nl _⟩

/-! ## The card file: what is written and what is read -/

theorem saveCardsText_foldl (f : Fmt) (h : Heap) (items : List Ptr) (acc : String) :
    (items.foldl (fun sb p => sb ++ ToMarkdown f (h p)) acc).data
      = acc.data ++ (items.map (fun p => (ToMarkdown f (h p)).data)).flatten := by
  induction items generalizing acc with
  | nil => simp
  | cons p ps ih => simp [ih, String.data_append]

theorem ToMarkdown_data (f : Fmt) (c : Card) :
    (ToMarkdown f c).data = ((cardLines f c).map (fun l => l ++ ['\n'])).flatten := by
  simp [ToMarkdown, cardLines, String.data_append]

theorem saveCardsText_data (f : Fmt) (h : Heap) (d : Deck) :
    (saveCardsText f h d).data
      = (((["# Cards".data, []] ++ (d.Cards.items.map (fun p => cardLines f (h p))).flatten).map
          (fun l => l ++ ['\n'])).flatten) ++ [] := by
  unfold saveCardsText
  rw [saveCardsText_foldl]
  simp only [ToMarkdown_data, List.map_append, List.flatten_append, List.append_nil]
  congr 1
  induction d.Cards.items with
  | nil => rfl
  | cons p ps ih => simp [ih]

theorem cardLines_no_nl (f : Fmt) (c : Card) (hF : '\n' ∉ c.Front.data)
    (hB : '\n' ∉ c.Back.data) (hE : '\n' ∉ (f.float2 c.EaseFactor).data)
    (hT : '\n' ∉ (f.rfc3339 c.LastReviewed).data) :
    ∀ l ∈ cardLines f c, '\n' ∉ l := by
  have hS := toString_int_no_nl c.Score
  have hI := toString_int_no_nl c.Interval
  have hSt := toString_int_no_nl c.Status.toInt
  intro l hl
  simp only [cardLines, List.mem_cons, List.mem_singleton, List.not_mem_nil, or_false] at hl
  rcases hl with rfl | rfl | rfl | rfl | rfl | rfl | rfl | rfl <;>
    simp [List.mem_append, *]

theorem readCardsLine_field (st : List Card × Option Card) (a b : List Char)
    (ha : a.getLast? ≠ some '\r')
    (h1 : ∀ x, "### Card".data.isPrefixOf (a ++ x) = false)
    (h2 : ∀ x, "- Front: ".data.isPrefixOf (a ++ x) = false)
    (h3 : ∀ x, "- Back: ".data.isPrefixOf (a ++ x) = false) :
    readCardsLine st (String.mk (dropCR (a ++ b))) = st := by
  rw [dropCR_append _ _ ha]
  simp [readCardsLine, hasPrefix, h1, h2, h3]

theorem foldl_readCardsLine_card (f : Fmt) (c : Card) (st : List Card × Option Card) :
    ((cardLines f c).map (fun l => String.mk (dropCR l))).foldl readCardsLine st
      = (finish st, some Card.zero) := by
  have hh : readCardsLine st (String.mk (dropCR "### Card".data)) = (finish st, some Card.zero) := by
    have : dropCR "### Card".data = "### Card".data := by decide
    rw [this]
    simp [readCardsLine, finish, hasPrefix]
  simp only [cardLines, List.map_cons, List.map_nil, List.foldl_cons, List.foldl_nil, hh]
  rw [readCardsLine_field _ _ _ (by decide) (by simp [List.isPrefixOf]) (by simp [List.isPrefixOf])
      (by simp [List.isPrefixOf]),
    readCardsLine_field _ _ _ (by decide) (by simp [List.isPrefixOf]) (by simp [List.isPrefixOf])
      (by simp [List.isPrefixOf]),
    readCardsLine_field _ _ _ (by decide) (by simp [List.isPrefixOf]) (by simp [List.isPrefixOf])
      (by simp [List.isPrefixOf]),
    readCardsLine_field _ _ _ (by decide) (by simp [List.isPrefixOf]) (by simp [List.isPrefixOf])
      (by simp [List.isPrefixOf]),
    readCardsLine_field _ _ _ (by decide) (by simp [List.isPrefixOf]) (by simp [List.isPrefixOf])
      (by simp [List.isPrefixOf]),
    readCardsLine_field _ _ _ (by decide) (by simp [List.isPrefixOf]) (by simp [List.isPrefixOf])
      (by simp [List.isPrefixOf]),
    readCardsLine_field _ _ _ (by decide) (by simp [List.isPrefixOf]) (by simp [List.isPrefixOf])
      (by simp [List.isPrefixOf])]

theorem foldl_readCardsLine_cards (f : Fmt) (h : Heap) (items : List Ptr) :
    ∀ st : List Card × Option Card,
      finish ((((items.map (fun p => cardLines f (h p))).flatten).map
          (fun l => String.mk (dropCR l))).foldl readCardsLine st)
        = finish st ++ items.map (fun _ => Card.zero) := by
  induction items with
  | nil => intro st; simp
  | cons p ps ih =>
    intro st
    simp only [List.map_cons, List.flatten_cons, List.map_append, List.foldl_append]
    rw [foldl_readCardsLine_card, ih]
    simp [finish]

/-- What `readCards` returns on a file written by `saveCards`. When no front, back or
formatted field holds a line feed and no written line reaches 65536 bytes, the result has
one card for each card of the deck, and every one of them is the zero card: the front and
back texts are not read back. -/
theorem readCards_saveCardsText (f : Fmt) (h : Heap) (d : Deck)
    (hnl : ∀ p ∈ d.Cards.items, '\n' ∉ (h p).Front.data ∧ '\n' ∉ (h p).Back.data ∧
      '\n' ∉ (f.float2 (h p).EaseFactor).data ∧ '\n' ∉ (f.rfc3339 (h p).LastReviewed).data)
    (hsize : ∀ p ∈ d.Cards.items, ∀ l ∈ cardLines f (h p), byteLen l < 65536) :
    readCards (some (saveCardsText f h d)) = some (d.Cards.items.map (fun _ => Card.zero)) := by
  have hlines : splitLines (saveCardsText f h d).data
      = ["# Cards".data, []] ++ (d.Cards.items.map (fun p => cardLines f (h p))).flatten := by
    rw [saveCardsText_data, splitLines_terminated]
    · simp [splitLines]
    · intro l hl
      simp only [List.mem_append, List.mem_cons, List.mem_singleton, List.not_mem_nil,
        or_false, List.mem_flatten, List.mem_map] at hl
      rcases hl with (rfl | rfl) | ⟨ls, ⟨p, hp, rfl⟩, hl⟩
      · decide
      · simp
      · obtain ⟨h1, h2, h3, h4⟩ := hnl p hp
        exact cardLines_no_nl f (h p) h1 h2 h3 h4 l hl
  have hall : (splitLines (saveCardsText f h d).data).all
      (fun l => decide (byteLen l < 65536)) = true := by
    rw [hlines, List.all_eq_true]
    intro l hl
    simp only [List.mem_append, List.mem_cons, List.mem_singleton, List.not_mem_nil,
      or_false, List.mem_flatten, List.mem_map] at hl
    rcases hl with (rfl | rfl) | ⟨ls, ⟨p, hp, rfl⟩, hl⟩
    · decide
    · decide
    · simpa using hsize p hp l hl
  simp only [readCards, scanLines, hall, if_true]
  rw [hlines]
  simp only [List.map_append, List.foldl_append]
  have h0 : (["# Cards".data, []].map (fun l => String.mk (dropCR l))).foldl readCardsLine
      (([], none) : List Card × Option Card) = ([], none) := by decide
  rw [h0]
  rw [foldl_readCardsLine_cards f h d.Cards.items ([], none)]
  simp [finish]

/-! ## The index file -/

theorem dropCR_of_not_cr (a : List Char) (ha : a.getLast? ≠ some '\r') : dropCR a = a := by
  simp [dropCR, ha]

theorem readDecksLine_heading (st : List Deck × Option Deck) (n : List Char) :
    readDecksLine st (String.mk (dropCR ("## ".data ++ n)))
      = (finish st, some { Deck.zero with Name := String.mk (dropCR n), Json := "" }) := by
  rw [dropCR_append _ _ (by decide)]
  simp [readDecksLine, hasPrefix, trimPrefix]

theorem readDecksLine_key (l : List Deck) (cur : Deck) (k : List Char) :
    readDecksLine (l, some cur) (String.mk (dropCR ("- JSON File: ".data ++ k)))
      = (l, some { cur with Name := String.mk (dropCR k) }) := by
  rw [dropCR_append _ _ (by decide)]
  simp [readDecksLine, hasPrefix, trimPrefix, List.isPrefixOf]

/-- What `readDecks` returns on an index made of a heading line and a field line. When
the name `N` and the key `K` hold no line feed, `K` does not end in a carriage return and
the two lines are shorter than 65536 bytes, the result is one deck whose `Name` is the key
`K` and whose `Json` is empty: the heading `N` is not kept. -/
theorem readDecks_heading_key (N K : String) (hN : '\n' ∉ N.data) (hK : '\n' ∉ K.data)
    (hcr : K.data.getLast? ≠ some '\r')
    (hsN : byteLen ("## ".data ++ N.data) < 65536)
    (hsK : byteLen ("- JSON File: ".data ++ K.data) < 65536) :
    readDecks (some ("## " ++ N ++ "\n- JSON File: " ++ K ++ "\n"))
      = some [{ Deck.zero with Name := K, Json := "" }] := by
  have hdata : ("## " ++ N ++ "\n- JSON File: " ++ K ++ "\n").data
      = (["## ".data ++ N.data, "- JSON File: ".data ++ K.data].map
          (fun l => l ++ ['\n'])).flatten ++ [] := by
    simp [String.data_append]
  have hlines : splitLines ("## " ++ N ++ "\n- JSON File: " ++ K ++ "\n").data
      = ["## ".data ++ N.data, "- JSON File: ".data ++ K.data] := by
    rw [hdata, splitLines_terminated]
    · simp [splitLines]
    · intro l hl
      simp only [List.mem_cons, List.mem_singleton, List.not_mem_nil, or_false] at hl
      rcases hl with rfl | rfl
      · simp [List.mem_append, hN]
      · simp [List.mem_append, hK]
  have hall : (splitLines ("## " ++ N ++ "\n- JSON File: " ++ K ++ "\n").data).all
      (fun l => decide (byteLen l < 65536)) = true := by
    rw [hlines]
    simp only [List.all_cons, List.all_nil, Bool.and_true, Bool.and_eq_true, decide_eq_true_eq]
    exact ⟨hsN, hsK⟩
  simp only [readDecks, scanLines, hall, if_true]
  rw [hlines]
  simp only [List.map_cons, List.map_nil, List.foldl_cons, List.foldl_nil]
  rw [readDecksLine_heading, readDecksLine_key, dropCR_of_not_cr _ hcr]
  simp [finish]

/-! ## The counters -/

theorem updateStatusStep_counts (h : Heap) (st : Deck × List Ptr) (p : Ptr)
    (hN : -(2 ^ 63) ≤ st.1.numNew ∧ st.1.numNew + 1 < 2 ^ 63)
    (hL : -(2 ^ 63) ≤ st.1.numLearning ∧ st.1.numLearning + 1 < 2 ^ 63)
    (hR : -(2 ^ 63) ≤ st.1.numReview ∧ st.1.numReview + 1 < 2 ^ 63)
    (hC : -(2 ^ 63) ≤ st.1.numComplete ∧ st.1.numComplete + 1 < 2 ^ 63) :
    (updateStatusStep h st p).1.numNew
        = st.1.numNew + (if (h p).Status = .New then 1 else 0) ∧
      (updateStatusStep h st p).1.numLearning
        = st.1.numLearning + (if (h p).Status = .Learning then 1 else 0) ∧
      (updateStatusStep h st p).1.numReview
        = st.1.numReview + (if (h p).Status = .Review then 1 else 0) ∧
      (updateStatusStep h st p).1.numComplete
        = st.1.numComplete + (if (h p).Status = .Complete then 1 else 0) := by
  have wN := wrapInt64_of_range (st.1.numNew + 1) (by omega) hN.2
  have wL := wrapInt64_of_range (st.1.numLearning + 1) (by omega) hL.2
  have wR := wrapInt64_of_range (st.1.numReview + 1) (by omega) hR.2
  have wC := wrapInt64_of_range (st.1.numComplete + 1) (by omega) hC.2
  unfold updateStatusStep
  cases (h p).Status <;> simp [wN, wL, wR, wC]

theorem foldl_updateStatusStep_counts (h : Heap) (items : List Ptr) :
    ∀ st : Deck × List Ptr,
      (-(2 ^ 63) ≤ st.1.numNew ∧ st.1.numNew + items.length < 2 ^ 63) →
      (-(2 ^ 63) ≤ st.1.numLearning ∧ st.1.numLearning + items.length < 2 ^ 63) →
      (-(2 ^ 63) ≤ st.1.numReview ∧ st.1.numReview + items.length < 2 ^ 63) →
      (-(2 ^ 63) ≤ st.1.numComplete ∧ st.1.numComplete + items.length < 2 ^ 63) →
      (items.foldl (updateStatusStep h) st).1.numNew
          = st.1.numNew + items.countP (fun p => (h p).Status = .New) ∧
        (items.foldl (updateStatusStep h) st).1.numLearning
          = st.1.numLearning + items.countP (fun p => (h p).Status = .Learning) ∧
        (items.foldl (updateStatusStep h) st).1.numReview
          = st.1.numReview + items.countP (fun p => (h p).Status = .Review) ∧
        (items.foldl (updateStatusStep h) st).1.numComplete
          = st.1.numComplete + items.countP (fun p => (h p).Status = .Complete) := by
  induction items with
  | nil => intro st _ _ _ _; simp
  | cons p ps ih =>
    intro st hN hL hR hC
    have hl : ((p :: ps).length : Int) = ps.length + 1 := by simp
    rw [hl] at hN hL hR hC
    obtain ⟨sN, sL, sR, sC⟩ := updateStatusStep_counts h st p
      ⟨hN.1, by omega⟩ ⟨hL.1, by omega⟩ ⟨hR.1, by omega⟩ ⟨hC.1, by omega⟩
    have hs : ∀ s : Status, ((if (h p).Status = s then 1 else 0 : Int) = 0 ∨
        (if (h p).Status = s then 1 else 0 : Int) = 1) := by
      intro s
      by_cases hh : (h p).Status = s <;> simp [hh]
    obtain ⟨rN, rL, rR, rC⟩ := ih (updateStatusStep h st p)
      (by rw [sN]; have := hs .New; omega) (by rw [sL]; have := hs .Learning; omega)
      (by rw [sR]; have := hs .Review; omega) (by rw [sC]; have := hs .Complete; omega)
    rw [List.foldl_cons, rN, rL, rR, rC, sN, sL, sR, sC]
    clear rN rL rR rC sN sL sR sC hN hL hR hC ih hs
    simp only [List.countP_cons, decide_eq_true_eq]
    refine ⟨?_, ?_, ?_, ?_⟩
    · by_cases hh : (h p).Status = .New <;> simp only [hh, if_true, if_false] <;> push_cast <;>
        ring
    · by_cases hh : (h p).Status = .Learning <;> simp only [hh, if_true, if_false] <;>
        push_cast <;> ring
    · by_cases hh : (h p).Status = .Review <;> simp only [hh, if_true, if_false] <;>
        push_cast <;> ring
    · by_cases hh : (h p).Status = .Complete <;> simp only [hh, if_true, if_false] <;>
        push_cast <;> ring

/-- What `UpdateStatus` computes. For a deck of fewer than 2^63 cards, `numNew`,
`numLearning` and `numReview` are the numbers of cards with that status, and `numComplete`
is its value before the call plus the number of `Complete` cards. -/
theorem UpdateStatus_counts (w : Widget) (h : Heap) (d : Deck)
    (hlen : (d.Cards.items.length : Int) < 2 ^ 63)
    (hC : -(2 ^ 63) ≤ d.numComplete ∧ d.numComplete + d.Cards.items.length < 2 ^ 63) :
    (UpdateStatus w h d).numNew = d.Cards.items.countP (fun p => (h p).Status = .New) ∧
      (UpdateStatus w h d).numLearning
        = d.Cards.items.countP (fun p => (h p).Status = .Learning) ∧
      (UpdateStatus w h d).numReview
        = d.Cards.items.countP (fun p => (h p).Status = .Review) ∧
      (UpdateStatus w h d).numComplete
        = d.numComplete + d.Cards.items.countP (fun p => (h p).Status = .Complete) := by
  obtain ⟨rN, rL, rR, rC⟩ := foldl_updateStatusStep_counts h d.Cards.items
    ({ d with numNew := 0, numLearning := 0, numReview := 0 }, [])
    ⟨by simp, by simpa using hlen⟩ ⟨by simp, by simpa using hlen⟩
    ⟨by simp, by simpa using hlen⟩ hC
  unfold UpdateStatus
  simp only at rN rL rR rC ⊢
  rw [rN, rL, rR, rC]
  simp

/-! ## The text store and the counters: claims C6, C7 and C8 -/

set_option maxRecDepth 100000

/-- C6 on the code. A deck with the one card `NewCard "2+2" "4"` is written by `saveCards`
with the field lines `- **Front:** 2+2` and `- **Back:** 4`; `readCards` looks for the
prefixes `- Front: ` and `- Back: `, finds the heading only, and returns one card with
empty front and back. -/
theorem C6_round_trip_loses_text :
    saveCardsText demoFmt demoHeap oneCardDeck
        = "# Cards\n\n### Card\n- **Front:** 2+2\n- **Back:** 4\n- **Score:** 0\n"
          ++ "- **Interval:** 0\n- **Ease Factor:** 0.00\n- **Status:** 0\n"
          ++ "- **Last Reviewed:** 0001-01-01T00:00:00Z\n" ∧
      readCards (some (saveCardsText demoFmt demoHeap oneCardDeck)) = some [Card.zero] ∧
      (oneCardDeck.Cards.items.map (fun p => ((demoHeap p).Front, (demoHeap p).Back)))
        = [("2+2", "4")] ∧
      (Card.zero.Front, Card.zero.Back) = ("", "") := by
  decide

/-- C7 on the code. For the index `## Spanish`, `- JSON File: spanish`, `readDecks` returns
one deck whose name is `spanish`: the field line overwrites the name taken from the
heading, and `Json` stays empty. `loadDecks` then builds one deck named `spanish` holding
the card of the file for `spanish`. -/
theorem C7_heading_name_overwritten :
    (readDecks demoFiles.decks).map (fun ds => ds.map (fun d => (d.Name, d.Json)))
        = some [("spanish", "")] ∧
      (loadDecks demoWidget demoFiles emptyMem []).map
          (fun r => r.2.map (fun d => (d.Name, d.Json))) = some [("spanish", "spanish")] ∧
      (loadDecks demoWidget demoFiles emptyMem []).map
          (fun r => r.2.map (fun d => d.Cards.items.map (fun p => r.1.heap p)))
        = some [[{ Card.zero with Front := "hola", Back := "hello" }]] := by
  refine ⟨by decide, by decide, ?_⟩
  decide

/-- C8 on the code. The deck of four cards has two `Complete` cards. From counters 0 one
`UpdateStatus` gives `numComplete = 2`, a second one gives 4, and from `numComplete = 7`
one call gives 9: `numComplete` is not reset. The other three counters are recounted. -/
theorem C8_numComplete_not_reset :
    (demoDeck.Cards.items.filter (fun p => (demoHeap p).Status = .Complete)).length = 2 ∧
      (UpdateStatus demoWidget demoHeap demoDeck).numComplete = 2 ∧
      (UpdateStatus demoWidget demoHeap
        (UpdateStatus demoWidget demoHeap demoDeck)).numComplete = 4 ∧
      (UpdateStatus demoWidget demoHeap { demoDeck with numComplete := 7 }).numComplete = 9 ∧
      (UpdateStatus demoWidget demoHeap
        { demoDeck with numNew := 7, numLearning := 7, numReview := 7 }).numNew = 1 ∧
      (UpdateStatus demoWidget demoHeap
        { demoDeck with numNew := 7, numLearning := 7, numReview := 7 }).numLearning = 1 ∧
      (UpdateStatus demoWidget demoHeap
        { demoDeck with numNew := 7, numLearning := 7, numReview := 7 }).numReview = 0 := by
  decide

/-! ## Lemmas on the review session -/

theorem afterSwitch_active (w : Widget) (msg : Msg) (s : World) (i : Nat)
    (hr : s.d.reviewData.reviewing = true) (hi : s.d.reviewData.currIx = i)
    (hlt : i < s.d.reviewData.reviewCards.length) :
    afterSwitch w false msg s
      = some ({ s with d := { s.d with
                  reviewData := { s.d.reviewData with
                    curr := some (s.d.reviewData.reviewCards.get ⟨i, hlt⟩) },
                  Cards := s.d.Cards.Update w msg } }, .deck) := by
  have h1 : ¬ (s.d.reviewData.currIx > (s.d.reviewData.reviewCards.length : Int) - 1) := by
    rw [hi]
    omega
  have h2 : ¬ (s.d.reviewData.currIx < 0) := by
    rw [hi]
    omega
  have h3 : s.d.reviewData.currIx.toNat = i := by
    rw [hi]
    simp
  simp only [afterSwitch, hr, if_true, h1, h2, if_false, h3, List.get?_eq_get hlt]

theorem afterSwitch_done (w : Widget) (msg : Msg) (s : World)
    (hr : s.d.reviewData.reviewing = true)
    (hi : s.d.reviewData.currIx = s.d.reviewData.reviewCards.length) :
    afterSwitch w false msg s
      = some ({ s with d := UpdateStatus w s.heap { s.d with
                  reviewData := { s.d.reviewData with reviewing := false, complete := false } } },
              .user) := by
  have h1 : s.d.reviewData.currIx > (s.d.reviewData.reviewCards.length : Int) - 1 := by
    rw [hi]
    omega
  simp [afterSwitch, hr, h1]

theorem Update_open_active (w : Widget) (t : Time) (s : World) (i : Nat) (ha : Active s i) :
    Update w false t .Open s
      = some ({ s with d := { s.d with
                  reviewData := { s.d.reviewData with complete := true },
                  Cards := s.d.Cards.Update w .nil } }, .deck) := by
  obtain ⟨hs, hne, hr, hi, hlt, hc⟩ := ha
  have hpos : 0 < s.d.Cards.items.length := List.length_pos.mpr hne
  have key := afterSwitch_active w .nil
    { s with d := { s.d with reviewData := { s.d.reviewData with complete := true } } } i hr hi hlt
  rw [List.get?_eq_get hlt] at hc
  have hu : Update w false t .Open s = afterSwitch w false .nil
      { s with d := { s.d with reviewData := { s.d.reviewData with complete := true } } } := by
    simp only [Update, hs, hpos, hr, Bool.not_false, decide_True, Bool.and_self, if_true]
  rw [hu, key]
  simp only [← hc]

theorem Update_key_hidden (w : Widget) (t : Time) (diff : Difficulty) (s : World) (i : Nat)
    (ha : Active s i) (hc : s.d.reviewData.complete = false) :
    Update w false t diff.key s
      = some ({ s with d := { s.d with Cards := s.d.Cards.Update w diff.key } }, .deck) := by
  obtain ⟨hs, hne, hr, hi, hlt, hcur⟩ := ha
  rw [List.get?_eq_get hlt] at hcur
  have hu : Update w false t diff.key s = afterSwitch w false diff.key s := by
    cases diff <;>
      simp only [Update, Difficulty.key, rate, hc, Bool.false_eq_true, if_false,
        Option.some_bind]
  rw [hu, afterSwitch_active w _ s i hr hi hlt, ← hcur]

theorem UpdateReview_currIx (d : Deck) (i : Nat) (hi : d.reviewData.currIx = i)
    (hn : (i : Int) + 1 < 2 ^ 63) :
    (UpdateReview d).reviewData.currIx = ((i + 1 : Nat) : Int) := by
  simp only [UpdateReview, hi]
  rw [wrapInt64_of_range _ (by omega) hn]
  push_cast
  rfl

theorem Update_key_shown (w : Widget) (t : Time) (diff : Difficulty) (s : World) (i : Nat)
    (ha : Active s i) (hc : s.d.reviewData.complete = true)
    (hn : (s.d.reviewData.reviewCards.length : Int) < 2 ^ 63) :
    ∃ s2 nx, Update w false t diff.key s = some (s2, nx) ∧
      s2.heap = Function.update s.heap (s.d.reviewData.reviewCards.get ⟨i, ha.2.2.2.2.1⟩)
        (SM2 t (s.heap (s.d.reviewData.reviewCards.get ⟨i, ha.2.2.2.2.1⟩)) diff) ∧
      s2.d.reviewData.reviewCards = s.d.reviewData.reviewCards ∧
      s2.d.reviewData.currIx = ((i + 1 : Nat) : Int) ∧
      s2.d.reviewData.complete = false ∧
      (i + 1 < s.d.reviewData.reviewCards.length → Active s2 (i + 1) ∧ nx = .deck) ∧
      (i + 1 = s.d.reviewData.reviewCards.length →
        s2.d.reviewData.reviewing = false ∧ nx = .user) := by
  obtain ⟨hs, hne, hr, hi, hlt, hcur⟩ := ha
  rw [List.get?_eq_get hlt] at hcur
  have hix := UpdateReview_currIx s.d i hi (by omega)
  have hu : Update w false t diff.key s = afterSwitch w false diff.key
      { heap := Function.update s.heap (s.d.reviewData.reviewCards.get ⟨i, hlt⟩)
          (SM2 t (s.heap (s.d.reviewData.reviewCards.get ⟨i, hlt⟩)) diff),
        d := UpdateReview s.d } := by
    cases diff <;>
      simp only [Update, Difficulty.key, rate, hc, if_true, hcur, Option.some_bind]
  rw [hu]
  by_cases hnext : i + 1 < s.d.reviewData.reviewCards.length
  · rw [afterSwitch_active w diff.key
      { heap := Function.update s.heap (s.d.reviewData.reviewCards.get ⟨i, hlt⟩)
          (SM2 t (s.heap (s.d.reviewData.reviewCards.get ⟨i, hlt⟩)) diff),
        d := UpdateReview s.d } (i + 1) hr hix hnext]
    refine ⟨_, _, rfl, rfl, rfl, hix, rfl, ?_, ?_⟩
    · intro _
      refine ⟨⟨hs, hne, hr, hix, hnext, ?_⟩, rfl⟩
      exact (List.get?_eq_get hnext).symm
    · intro h
      omega
  · have hlast : i + 1 = s.d.reviewData.reviewCards.length := by omega
    have hlen : (UpdateReview s.d).reviewData.currIx
        = ((UpdateReview s.d).reviewData.reviewCards.length : Int) := by
      rw [hix]
      exact_mod_cast hlast
    rw [afterSwitch_done w diff.key
      { heap := Function.update s.heap (s.d.reviewData.reviewCards.get ⟨i, hlt⟩)
          (SM2 t (s.heap (s.d.reviewData.reviewCards.get ⟨i, hlt⟩)) diff),
        d := UpdateReview s.d } hr hlen]
    refine ⟨_, _, rfl, rfl, ?_, ?_, ?_, ?_, ?_⟩
    · simp only [UpdateStatus_reviewData]
      rfl
    · simp only [UpdateStatus_reviewData]
      exact hix
    · simp only [UpdateStatus_reviewData]
    · intro h
      omega
    · intro _
      refine ⟨?_, rfl⟩
      simp only [UpdateStatus_reviewData]

theorem revealThenRate_spec (w : Widget) (r : Time × Difficulty) (s : World) (i : Nat)
    (ha : Active s i) (hn : (s.d.reviewData.reviewCards.length : Int) < 2 ^ 63) :
    ∃ s2 nx, revealThenRate w r s = some (s2, nx) ∧
      s2.heap = Function.update s.heap (s.d.reviewData.reviewCards.get ⟨i, ha.2.2.2.2.1⟩)
        (SM2 r.1 (s.heap (s.d.reviewData.reviewCards.get ⟨i, ha.2.2.2.2.1⟩)) r.2) ∧
      s2.d.reviewData.reviewCards = s.d.reviewData.reviewCards ∧
      s2.d.reviewData.currIx = ((i + 1 : Nat) : Int) ∧
      s2.d.reviewData.complete = false ∧
      (i + 1 < s.d.reviewData.reviewCards.length → Active s2 (i + 1) ∧ nx = .deck) ∧
      (i + 1 = s.d.reviewData.reviewCards.length →
        s2.d.reviewData.reviewing = false ∧ nx = .user) := by
  have ho := Update_open_active w r.1 s i ha
  have ha1 : Active { s with d := { s.d with
      reviewData := { s.d.reviewData with complete := true },
      Cards := s.d.Cards.Update w .nil } } i := by
    obtain ⟨hs, hne, hr, hi, hlt, hcur⟩ := ha
    exact ⟨hs, hne, hr, hi, hlt, hcur⟩
  obtain ⟨s2, nx, hu, h1, h2, h3, h4, h5, h6⟩ :=
    Update_key_shown w r.1 r.2 _ i ha1 rfl hn
  refine ⟨s2, nx, ?_, h1, h2, h3, h4, h5, h6⟩
  simp only [revealThenRate, ho]
  exact hu

theorem runSession_spec (w : Widget) (rs : List (Time × Difficulty)) :
    ∀ (s : World) (i : Nat), Active s i → s.d.reviewData.complete = false →
      (s.d.reviewData.reviewCards.length : Int) < 2 ^ 63 →
      i + rs.length ≤ s.d.reviewData.reviewCards.length →
      ∃ s2 nx, runSession w rs s = some (s2, nx) ∧
        s2.heap = rateCards s.heap ((s.d.reviewData.reviewCards.drop i).zip rs) ∧
        s2.d.reviewData.reviewCards = s.d.reviewData.reviewCards ∧
        s2.d.reviewData.currIx = ((i + rs.length : Nat) : Int) ∧
        s2.d.reviewData.complete = false ∧
        (i + rs.length < s.d.reviewData.reviewCards.length →
          Active s2 (i + rs.length) ∧ nx = .deck) ∧
        (i + rs.length = s.d.reviewData.reviewCards.length →
          s2.d.reviewData.reviewing = false ∧ nx = .user) := by
  induction rs with
  | nil =>
    intro s i ha hc _ _
    refine ⟨s, .deck, rfl, by simp [rateCards], rfl, by simpa using ha.2.2.2.1, hc, ?_, ?_⟩
    · intro _
      exact ⟨by simpa using ha, rfl⟩
    · intro h
      have := ha.2.2.2.2.1
      simp at h
      omega
  | cons r rs ih =>
    intro s i ha hc hn hle
    have hlt := ha.2.2.2.2.1
    have hl : (r :: rs).length = rs.length + 1 := rfl
    rw [hl] at hle
    obtain ⟨s1, nx1, hu, h1, h2, h3, h4, h5, h6⟩ := revealThenRate_spec w r s i ha hn
    have hdrop : (s.d.reviewData.reviewCards.drop i).zip (r :: rs)
        = (s.d.reviewData.reviewCards.get ⟨i, hlt⟩, r)
          :: (s.d.reviewData.reviewCards.drop (i + 1)).zip rs := by
      rw [List.drop_eq_getElem_cons hlt]
      rfl
    rw [hdrop, hl]
    simp only [rateCards]
    by_cases hnext : i + 1 < s.d.reviewData.reviewCards.length
    · obtain ⟨ha1, hx⟩ := h5 hnext
      subst hx
      obtain ⟨s2, nx, hr2, g1, g2, g3, g4, g5, g6⟩ :=
        ih s1 (i + 1) ha1 h4 (by rw [h2]; exact hn) (by rw [h2]; omega)
      refine ⟨s2, nx, ?_, ?_, ?_, ?_, g4, ?_, ?_⟩
      · simp only [runSession, hu]
        exact hr2
      · rw [g1, h1, h2]
      · rw [g2, h2]
      · rw [g3]
        congr 1
        omega
      · intro h
        rw [h2] at g5
        have := g5 (by omega)
        rw [show i + (rs.length + 1) = i + 1 + rs.length by omega]
        exact this
      · intro h
        rw [h2] at g6
        exact g6 (by omega)
    · have hlast : i + 1 = s.d.reviewData.reviewCards.length := by omega
      have hrs : rs = [] := List.length_eq_zero.mp (by omega)
      subst hrs
      obtain ⟨hrev, hx⟩ := h6 hlast
      subst hx
      refine ⟨s1, .user, ?_, ?_, h2, ?_, h4, ?_, ?_⟩
      · simp only [runSession, hu]
        rfl
      · rw [h1]
        simp [rateCards]
      · rw [h3]
        rfl
      · intro h
        simp at h
        omega
      · intro _
        exact ⟨hrev, rfl⟩

theorem StartReview_reviewCards (shuffle : List Ptr → List Ptr) (t0 : Time) (s : World) :
    (StartReview shuffle t0 s).d.reviewData.reviewCards
      = (GetReviewCards shuffle t0 s.heap s.d).2 := by
  simp only [StartReview]
  split <;> rfl

theorem StartReview_active (shuffle : List Ptr → List Ptr)
    (hshuffle : ∀ l, (shuffle l).Perm l) (t0 : Time) (s : World)
    (hs : s.d.searching = false)
    (hn : 1 ≤ (StartReview shuffle t0 s).d.reviewData.reviewCards.length) :
    Active (StartReview shuffle t0 s) 0 ∧
      (StartReview shuffle t0 s).d.reviewData.complete = false ∧
      (StartReview shuffle t0 s).d.reviewData.reviewCards
        = (GetReviewCards shuffle t0 s.heap s.d).2 ∧
      (StartReview shuffle t0 s).heap = (GetReviewCards shuffle t0 s.heap s.d).1 ∧
      (StartReview shuffle t0 s).d.Cards = s.d.Cards := by
  have hrc : (StartReview shuffle t0 s).d.reviewData.reviewCards
      = (GetReviewCards shuffle t0 s.heap s.d).2 := by
    simp only [StartReview]
    split <;> rfl
  rw [hrc] at hn
  have hpos : 0 < (GetReviewCards shuffle t0 s.heap s.d).2.length := by omega
  have hne : s.d.Cards.items ≠ [] := by
    intro h0
    have hp := (GetReviewCards_perm shuffle hshuffle t0 s.heap s.d)
    rw [h0] at hp
    simp only [List.filter_nil, List.perm_nil] at hp
    rw [hp] at hpos
    simp at hpos
  refine ⟨⟨?_, ?_, ?_, ?_, ?_, ?_⟩, ?_, hrc, ?_, ?_⟩
  · simpa [StartReview] using hs
  · simpa [StartReview] using hne
  · simp only [StartReview]
    split <;> rfl
  · simp only [StartReview]
    split <;> rfl
  · rw [hrc]
    exact hpos
  · simp only [StartReview, hpos, if_true]
    cases hg : (GetReviewCards shuffle t0 s.heap s.d).2 with
    | nil => rw [hg] at hpos; simp at hpos
    | cons a l => simp
  · simp only [StartReview]
    split <;> rfl
  · simp [StartReview]
  · simp [StartReview]

theorem rateCards_zip_not_mem (due : List Ptr) :
    ∀ (h : Heap) (rs : List (Time × Difficulty)) (p : Ptr), p ∉ due.take rs.length →
      rateCards h (due.zip rs) p = h p := by
  induction due with
  | nil => intro h rs p _; simp [rateCards]
  | cons q qs ih =>
    intro h rs p hp
    cases rs with
    | nil => simp [rateCards]
    | cons r rs =>
      simp only [List.length_cons, List.take_succ_cons, List.mem_cons, not_or] at hp
      have hz : (q :: qs).zip (r :: rs) = (q, r) :: qs.zip rs := rfl
      rw [hz]
      simp only [rateCards]
      rw [ih _ rs p hp.2, Function.update_noteq hp.1]

theorem rateCards_zip_get (due : List Ptr) (hnd : due.Nodup) :
    ∀ (h : Heap) (rs : List (Time × Difficulty)) (j : Nat) (hj : j < rs.length)
      (hd : j < due.length),
      rateCards h (due.zip rs) due[j] = SM2 rs[j].1 (h due[j]) rs[j].2 := by
  induction due with
  | nil => intro h rs j _ hd; simp at hd
  | cons q qs ih =>
    intro h rs j hj hd
    obtain ⟨hq, hqs⟩ := List.nodup_cons.mp hnd
    cases rs with
    | nil => simp at hj
    | cons r rs =>
      have hz : (q :: qs).zip (r :: rs) = (q, r) :: qs.zip rs := rfl
      rw [hz]
      simp only [rateCards]
      cases j with
      | zero =>
        simp only [List.getElem_cons_zero]
        rw [rateCards_zip_not_mem qs _ rs q (fun hm => hq (List.mem_of_mem_take hm)),
          Function.update_same]
      | succ j =>
        simp only [List.getElem_cons_succ]
        simp only [List.length_cons, Nat.add_lt_add_iff_right] at hj hd
        rw [ih hqs _ rs j hj hd]
        have hne : qs[j] ≠ q := fun e => hq (e ▸ List.getElem_mem ..)
        rw [Function.update_noteq hne]

/-! ## The review session: claim C11 -/

/-- C11. A review session started by `StartReview` with a due list of `n >= 1` cards
(`n` below 2^63, as every slice is) on a deck that is not searching, driven by `Update` in
non-CLI mode. (1) The session is running with the cursor at 0 and the answer hidden.
(2) In every running session, a rating key pressed while the answer is hidden leaves the
cards in memory, the session and the rest of the deck as they are (only the list widget
receives the key); pressed while the answer is shown it applies `SM2` to the card at the
cursor and to no other card, moves `currIx` to the next index and hides the answer, and
the session keeps running when a card is left and stops (`reviewing = false`, control
returns to the user model) when none is. (3) After `k <= n` reveal-then-rate steps the
memory is the one where the first `k` cards of the due list have been rated in order,
`currIx` is `k`, and the session is still running when `k < n` and has stopped when
`k = n`; a card outside the first `k` is unchanged and, when the deck holds no card
twice, each of the first `k` cards has been rated exactly once. -/
theorem C11_session_progression (w : Widget) (shuffle : List Ptr → List Ptr)
    (hshuffle : ∀ l, (shuffle l).Perm l) (t0 : Time) (s : World)
    (hs : s.d.searching = false)
    (hn1 : 1 ≤ (StartReview shuffle t0 s).d.reviewData.reviewCards.length)
    (hn2 : ((StartReview shuffle t0 s).d.reviewData.reviewCards.length : Int) < 2 ^ 63) :
    (Active (StartReview shuffle t0 s) 0 ∧
      (StartReview shuffle t0 s).d.reviewData.complete = false) ∧
    (∀ (s1 : World) (i : Nat) (t : Time) (diff : Difficulty) (ha : Active s1 i),
      (s1.d.reviewData.reviewCards.length : Int) < 2 ^ 63 →
      (s1.d.reviewData.complete = false →
        Update w false t diff.key s1
          = some ({ s1 with d := { s1.d with Cards := s1.d.Cards.Update w diff.key } },
                  .deck)) ∧
      (s1.d.reviewData.complete = true →
        ∃ s2 nx, Update w false t diff.key s1 = some (s2, nx) ∧
          s2.heap (s1.d.reviewData.reviewCards.get ⟨i, ha.2.2.2.2.1⟩)
            = SM2 t (s1.heap (s1.d.reviewData.reviewCards.get ⟨i, ha.2.2.2.2.1⟩)) diff ∧
          (∀ q, q ≠ s1.d.reviewData.reviewCards.get ⟨i, ha.2.2.2.2.1⟩ →
            s2.heap q = s1.heap q) ∧
          s2.d.reviewData.reviewCards = s1.d.reviewData.reviewCards ∧
          s2.d.reviewData.currIx = s1.d.reviewData.currIx + 1 ∧
          s2.d.reviewData.complete = false ∧
          (i + 1 < s1.d.reviewData.reviewCards.length → Active s2 (i + 1) ∧ nx = .deck) ∧
          (i + 1 = s1.d.reviewData.reviewCards.length →
            s2.d.reviewData.reviewing = false ∧ nx = .user))) ∧
    (∀ rs : List (Time × Difficulty),
      rs.length ≤ (StartReview shuffle t0 s).d.reviewData.reviewCards.length →
      ∃ s2 nx, runSession w rs (StartReview shuffle t0 s) = some (s2, nx) ∧
        s2.heap = rateCards (StartReview shuffle t0 s).heap
          ((StartReview shuffle t0 s).d.reviewData.reviewCards.zip rs) ∧
        (∀ p, p ∉ (StartReview shuffle t0 s).d.reviewData.reviewCards.take rs.length →
          s2.heap p = (StartReview shuffle t0 s).heap p) ∧
        (s.d.Cards.items.Nodup →
          ∀ (j : Nat) (hj : j < rs.length)
            (hd : j < (StartReview shuffle t0 s).d.reviewData.reviewCards.length),
            s2.heap ((StartReview shuffle t0 s).d.reviewData.reviewCards[j])
              = SM2 rs[j].1
                  ((StartReview shuffle t0 s).heap
                    ((StartReview shuffle t0 s).d.reviewData.reviewCards[j]))
                  rs[j].2) ∧
        s2.d.reviewData.currIx = rs.length ∧
        s2.d.reviewData.complete = false ∧
        (rs.length < (StartReview shuffle t0 s).d.reviewData.reviewCards.length →
          s2.d.reviewData.reviewing = true ∧ Active s2 rs.length ∧ nx = .deck) ∧
        (rs.length = (StartReview shuffle t0 s).d.reviewData.reviewCards.length →
          s2.d.reviewData.reviewing = false ∧ nx = .user)) := by
  obtain ⟨ha0, hc0, hrc, _, _⟩ := StartReview_active shuffle hshuffle t0 s hs hn1
  refine ⟨⟨ha0, hc0⟩, ?_, ?_⟩
  · intro s1 i t diff ha hn
    refine ⟨fun hc => Update_key_hidden w t diff s1 i ha hc, fun hc => ?_⟩
    obtain ⟨s2, nx, hu, h1, h2, h3, h4, h5, h6⟩ := Update_key_shown w t diff s1 i ha hc hn
    refine ⟨s2, nx, hu, ?_, ?_, h2, ?_, h4, h5, h6⟩
    · rw [h1, Function.update_same]
    · intro q hq
      rw [h1, Function.update_noteq hq]
    · rw [h3, ha.2.2.2.1]
      push_cast
      rfl
  · intro rs hle
    obtain ⟨s2, nx, hr, g1, g2, g3, g4, g5, g6⟩ :=
      runSession_spec w rs (StartReview shuffle t0 s) 0 ha0 hc0 hn2 (by omega)
    simp only [List.drop_zero, Nat.zero_add] at g1 g3 g5 g6
    have hnd : s.d.Cards.items.Nodup →
        (StartReview shuffle t0 s).d.reviewData.reviewCards.Nodup := by
      intro hi
      rw [hrc, (GetReviewCards_perm shuffle hshuffle t0 s.heap s.d).nodup_iff]
      exact hi.filter _
    refine ⟨s2, nx, hr, g1, ?_, ?_, g3, g4, ?_, g6⟩
    · intro p hp
      rw [g1, rateCards_zip_not_mem _ _ _ _ hp]
    · intro hi j hj hd
      rw [g1, rateCards_zip_get _ (hnd hi) _ _ j hj hd]
    · intro h
      obtain ⟨ha2, hx⟩ := g5 h
      exact ⟨ha2.2.2.1, ha2, hx⟩

/-- C11 at the deck of four cards, reviewed ten minutes after the zero time with the
shuffle that reverses the list: the due list is `[2, 1, 0]`; after the three steps
`Good`, `Again`, `Easy` the session has stopped and the cards at 2, 1 and 0 have been
rated in that order. -/
theorem C11_session_progression_witness :
    (∀ l : List Ptr, (List.reverse l).Perm l) ∧ demoDeck.searching = false ∧
      (StartReview List.reverse 600000000000 ⟨demoHeap, demoDeck⟩).d.reviewData.reviewCards
        = [2, 1, 0] ∧
      Active (StartReview List.reverse 600000000000 ⟨demoHeap, demoDeck⟩) 0 ∧
      (∃ s2 nx, runSession demoWidget [(1, .Good), (2, .Again), (3, .Easy)]
          (StartReview List.reverse 600000000000 ⟨demoHeap, demoDeck⟩) = some (s2, nx) ∧
        s2.heap = rateCards (StartReview List.reverse 600000000000 ⟨demoHeap, demoDeck⟩).heap
          [(2, 1, .Good), (1, 2, .Again), (0, 3, .Easy)] ∧
        s2.d.reviewData.currIx = 3 ∧
        s2.d.reviewData.reviewing = false ∧ nx = .user) := by
  have hdue : (StartReview List.reverse 600000000000 ⟨demoHeap, demoDeck⟩).d.reviewData.reviewCards
      = [2, 1, 0] := by
    rw [StartReview_reviewCards]
    exact demoDeck_due
  have h := C11_session_progression demoWidget List.reverse List.reverse_perm 600000000000
    ⟨demoHeap, demoDeck⟩ rfl (by rw [hdue]; decide) (by rw [hdue]; decide)
  refine ⟨List.reverse_perm, rfl, hdue, h.1.1, ?_⟩
  obtain ⟨s2, nx, hr, g1, _, _, g3, _, _, g6⟩ :=
    h.2.2 [(1, .Good), (2, .Again), (3, .Easy)] (by rw [hdue]; decide)
  rw [hdue] at g1 g6
  obtain ⟨g7, g8⟩ := g6 rfl
  exact ⟨s2, nx, hr, g1, g3, g7, g8⟩

end Goki
